import Mathlib

/-!
Verification of the MaTultimate hybrid document compilation pipeline.

Text is modelled as `List Char` (one Python `str` character per entry) and
byte strings as `List Nat`.  Each Python source file is embedded in its own
namespace:

* `Sanitizers`      — backend/app/core/sanitizers.py
* `Sanitizer`       — backend/app/core/sanitizer.py
* `CodeSanitizer`   — matultimate-backend/backend/app/core/sanitizer.py
* `BackendCompiler` — backend/app/core/compiler.py  (DocumentCompiler)
* `MB`              — matultimate-backend/backend/app/core/compiler.py (DocumentCompiler)
* `HybridCompiler`  — backend/app/core/hybrid_compiler.py

External child processes (pdflatex, pdftoppm, typst) and clock/uuid reads are
the only effects the Python code performs besides filesystem writes; they are
modelled as oracle fields of an environment record, and the filesystem as the
list of paths that exist on disk.  The specific regular expressions used by
the sources are compiled by hand into executable scanners with Python `re`
semantics (leftmost, non-overlapping matches; greedy quantifiers).
-/

/-- Python `str.strip()` whitespace set (ASCII part; the sources only ever
produce ASCII whitespace). -/
def isPyWs (c : Char) : Bool :=
  c = ' ' || c = '\t' || c = '\n' || c = '\x0d' || c = '\x0b' || c = '\x0c'

/-- `[a-zA-Z]`. -/
def isAsciiAlpha (c : Char) : Bool :=
  ('a' ≤ c && c ≤ 'z') || ('A' ≤ c && c ≤ 'Z')

/-- `\w` (ASCII part): `[a-zA-Z0-9_]`. -/
def isWordChar (c : Char) : Bool :=
  isAsciiAlpha c || ('0' ≤ c && c ≤ '9') || c = '_'

/-- `\d`. -/
def isAsciiDigit (c : Char) : Bool := '0' ≤ c && c ≤ '9'

/-- Remove trailing characters satisfying `p` (Python `str.rstrip`). -/
def dropTrail (p : Char → Bool) (s : List Char) : List Char :=
  (s.reverse.dropWhile p).reverse

/-- Python `str.strip()`: drop leading and trailing whitespace. -/
def pyStrip (s : List Char) : List Char :=
  dropTrail isPyWs (s.dropWhile isPyWs)

/-- Python `str.replace(pat, rep)`: replace every non-overlapping occurrence,
scanning left to right.  (All patterns used by the sources are nonempty, so
each step consumes at least one character and fuel = length suffices.) -/
def replaceAllGo (pat rep : List Char) : Nat → List Char → List Char
  | 0, s => s
  | _ + 1, [] => []
  | fuel + 1, c :: rest =>
    if pat.isPrefixOf (c :: rest) ∧ pat ≠ [] then
      rep ++ replaceAllGo pat rep fuel ((c :: rest).drop pat.length)
    else
      c :: replaceAllGo pat rep fuel rest

def replaceAll (pat rep : List Char) (s : List Char) : List Char :=
  replaceAllGo pat rep s.length s

/-- Does `pat` occur as a contiguous substring? -/
def containsSub (pat : List Char) : List Char → Bool
  | [] => pat.isPrefixOf []
  | c :: rest => pat.isPrefixOf (c :: rest) || containsSub pat rest

/-- Number of occurrences of a single character. -/
def countChar (c : Char) (s : List Char) : Nat :=
  s.countP (· = c)

/-- Python `s.split('\n')`. -/
def splitNl : List Char → List (List Char)
  | [] => [[]]
  | c :: rest =>
    if c = '\n' then [] :: splitNl rest
    else
      match splitNl rest with
      | [] => [[c]]
      | l :: ls => (c :: l) :: ls

/-- Python `'\n'.join(lines)`. -/
def joinNl : List (List Char) → List Char
  | [] => []
  | l :: ls =>
    match ls with
    | [] => l
    | _ :: _ => l ++ '\n' :: joinNl ls

/-- Decimal digits of a natural number. -/
def natChars (n : Nat) : List Char :=
  (Nat.toDigits 10 n)

/-- Python `format(d, '+d')`: always-signed decimal rendering of an integer. -/
def intSignedChars (d : Int) : List Char :=
  if d < 0 then '-' :: natChars (-d).toNat else '+' :: natChars d.toNat

/-- Python `format(d, 'd')` for the (possibly negative) counts that are
interpolated without a sign specifier. -/
def intChars (d : Int) : List Char :=
  if d < 0 then '-' :: natChars (-d).toNat else natChars d.toNat

/-- ASCII `str.lower()`. -/
def lowerChar (c : Char) : Char :=
  if 'A' ≤ c && c ≤ 'Z' then Char.ofNat (c.toNat + 32) else c

def pyLower (s : List Char) : List Char := s.map lowerChar

/-- The three-backtick fence marker. -/
def backtick3 : List Char := ['`', '`', '`']

namespace Sanitizers

/-!  backend/app/core/sanitizers.py — `strip_markdown_fences`.

```python
if not code: return ""
code = code.strip()
code = re.sub(r'^```(?:[a-zA-Z]*)\n?', '', code)   # start fence
code = re.sub(r'```$', '', code)                   # end fence
return code.strip()
```

Neither regex is MULTILINE, so the first reduces to removing the prefix
"```" + a maximal run of letters + an optional newline, and the second to
removing a final "```" (the input has been stripped, so `$` cannot sit
before a trailing newline). -/

/-- One application of `re.sub(r'^```(?:[a-zA-Z]*)\n?', '', s)`: if the
string starts with three backticks, drop them, the maximal run of letters,
and one newline if present. -/
def dropStartFence (s : List Char) : List Char :=
  if backtick3.isPrefixOf s then
    match (s.drop 3).dropWhile isAsciiAlpha with
    | '\n' :: r => r
    | r => r
  else s

/-- One application of `re.sub(r'```$', '', s)` on a stripped string. -/
def dropEndFence (s : List Char) : List Char :=
  if backtick3.isSuffixOf s then s.dropLast.dropLast.dropLast else s

def strip_markdown_fences (code : List Char) : List Char :=
  if code = [] then []
  else pyStrip (dropEndFence (dropStartFence (pyStrip code)))

end Sanitizers

/-!  Generic engine for a Python `re.sub(pattern, rep, s)` whose pattern has
no `^`/`$` anchors: scan left to right; at each position ask the matcher for
a match (the matcher sees the previous original character, for `\b`
assertions, and the rest of the string); on a match of `k` characters emit
the replacement and continue after the match, otherwise emit one character
and move on.  Fuel equals the string length: every step consumes at least
one character, matching Python's non-overlapping leftmost scan. -/
def scanSub (tm : Option Char → List Char → Option (List Char × Nat)) :
    Nat → Option Char → List Char → List Char
  | 0, _, s => s
  | _ + 1, _, [] => []
  | fuel + 1, prev, c :: rest =>
    match tm prev (c :: rest) with
    | some (rep, k) =>
      rep ++ scanSub tm fuel (((c :: rest).take k).getLast?) ((c :: rest).drop k)
    | none => c :: scanSub tm fuel (some c) rest

def runSub (tm : Option Char → List Char → Option (List Char × Nat))
    (s : List Char) : List Char :=
  scanSub tm s.length none s

namespace Sanitizer

/-!  backend/app/core/sanitizer.py — `strip_markdown_fences`,
`fix_decimal_commas_in_math` and `sanitize_typst_code`. -/

/-- `re.sub(r'(\d),(\d)', r'\1.\2', s)`: Norwegian decimal commas between two
digits become dots; non-overlapping, so in `1,2,3` only the first comma is
rewritten (the `2` is consumed by the first match). -/
def fixCommasGo : Nat → List Char → List Char
  | 0, s => s
  | _ + 1, [] => []
  | fuel + 1, a :: rest =>
    match rest with
    | ',' :: b :: rest2 =>
      if isAsciiDigit a && isAsciiDigit b then a :: '.' :: b :: fixCommasGo fuel rest2
      else a :: fixCommasGo fuel rest
    | _ => a :: fixCommasGo fuel rest

def fixCommasDigits (s : List Char) : List Char := fixCommasGo s.length s

/-- Matcher for `\$([^$]+)\$` with replacement `'$' + fix(group) + '$'`:
the greedy `[^$]+` runs to the next dollar, which must exist. -/
def mInlineMath (_ : Option Char) (s : List Char) : Option (List Char × Nat) :=
  match s with
  | '$' :: rest =>
    let inner := rest.takeWhile (· ≠ '$')
    if inner ≠ [] ∧ '$' ∈ (rest.drop inner.length).take 1 then
      some ('$' :: fixCommasDigits inner ++ ['$'], inner.length + 2)
    else none
  | _ => none

/-- Matcher for `\$\s+([^$]+)\s+\$` with replacement `'$ ' + fix(group) + ' $'`.
Backtracking resolution of the greedy quantifiers: the first `\s+` takes the
maximal leading whitespace run (capped so that the group and the final `\s+`
keep one character each), the final `\s+` gets exactly the last character of
the region, and the group is everything in between. -/
def mDisplayMath (_ : Option Char) (s : List Char) : Option (List Char × Nat) :=
  match s with
  | '$' :: rest =>
    let inner := rest.takeWhile (· ≠ '$')
    let n := inner.length
    if 3 ≤ n ∧ '$' ∈ (rest.drop n).take 1 then
      match inner, inner.getLast? with
      | c0 :: _, some clast =>
        if isPyWs c0 && isPyWs clast then
          let lead := (inner.takeWhile isPyWs).length
          let a := min lead (n - 2)
          let g := (inner.drop a).dropLast
          some ('$' :: ' ' :: fixCommasDigits g ++ [' ', '$'], n + 2)
        else none
      | _, _ => none
    else none
  | _ => none

/--
```python
def fix_decimal_commas_in_math(code):
    code = re.sub(r'\$([^$]+)\$', fix_math_block, code)
    code = re.sub(r'\$\s+([^$]+)\s+\$', fix_display_math, code)
    return code
```
-/
def fix_decimal_commas_in_math (code : List Char) : List Char :=
  runSub mDisplayMath (runSub mInlineMath code)

/-- sanitizer.py `strip_markdown_fences`: same two anchored regexes as
sanitizers.py, but the text is re-stripped before the end-fence removal:
`re.sub(start, '', code.strip())`, then `re.sub(r'```$', '', code.strip())`,
then `.strip()`. -/
def strip_markdown_fences (code : List Char) : List Char :=
  if code = [] then []
  else pyStrip (Sanitizers.dropEndFence (pyStrip (Sanitizers.dropStartFence (pyStrip code))))

/-- Consume `pat` case-insensitively (ASCII) from the head of `s`. -/
def stripCI : List Char → List Char → Option (List Char)
  | [], s => some s
  | _ :: _, [] => none
  | p :: ps, c :: cs => if lowerChar c = lowerChar p then stripCI ps cs else none

/-- Matcher for `#set\s+text\s*\([^)]*font:[^)]*\)` (IGNORECASE): the
bracketed region runs to the first `)` after the `(` and must contain
`font:` (case-insensitively); replacement `#set text(lang: "nb", size: 11pt)`. -/
def mFontSetText (_ : Option Char) (s : List Char) : Option (List Char × Nat) :=
  match stripCI "#set".toList s with
  | some (c1 :: r1) =>
    if isPyWs c1 then
      let r2 := r1.dropWhile isPyWs
      match stripCI "text".toList r2 with
      | some r3 =>
        match r3.dropWhile isPyWs with
        | '(' :: r4 =>
          let run := r4.takeWhile (· ≠ ')')
          if ')' ∈ (r4.drop run.length).take 1 ∧
              containsSub "font:".toList (pyLower run) then
            some ("#set text(lang: \"nb\", size: 11pt)".toList,
              s.length - (r4.drop (run.length + 1)).length)
          else none
        | _ => none
      | none => none
    else none
  | _ => none

/-- Matcher for `arrow\s+(\d)` → `-> \1`. -/
def mArrowDigit (_ : Option Char) (s : List Char) : Option (List Char × Nat) :=
  match stripCI [] s, s with
  | _, 'a' :: 'r' :: 'r' :: 'o' :: 'w' :: r =>
    let w := r.takeWhile isPyWs
    if w ≠ [] then
      match r.drop w.length with
      | d :: _ => if isAsciiDigit d then some (['-', '>', ' ', d], 6 + w.length) else none
      | [] => none
    else none
  | _, _ => none

/-- Matcher for `\s*&\s*"WORD"` → ` "WORD"` (used with for/hvis/når). -/
def mAmpQuoted (word : List Char) (_ : Option Char) (s : List Char) :
    Option (List Char × Nat) :=
  let w1 := s.takeWhile isPyWs
  match s.drop w1.length with
  | '&' :: r1 =>
    let w2 := r1.takeWhile isPyWs
    let lit := '"' :: word ++ ['"']
    if lit.isPrefixOf (r1.drop w2.length) then
      some (' ' :: lit, w1.length + 1 + w2.length + lit.length)
    else none
  | _ => none

/-- Matcher for `(\d)"([a-zA-Z])` → `\1 "\2` (space before a quoted unit). -/
def mDigitQuote (_ : Option Char) (s : List Char) : Option (List Char × Nat) :=
  match s with
  | d :: '"' :: l :: _ =>
    if isAsciiDigit d && isAsciiAlpha l then some ([d, ' ', '"', l], 3) else none
  | _ => none

/-- Matcher for `\bd\s+V\b` → `dif V` for a variable letter `V` (x, t, y). -/
def mDVar (v : Char) (prev : Option Char) (s : List Char) :
    Option (List Char × Nat) :=
  if (prev.map isWordChar).getD false then none
  else
    match s with
    | 'd' :: r =>
      let w := r.takeWhile isPyWs
      if w ≠ [] then
        match r.drop w.length with
        | c :: after =>
          if c = v ∧ ¬ ((after.head?.map isWordChar).getD false) then
            some (['d', 'i', 'f', ' ', v], 2 + w.length)
          else none
        | [] => none
      else none
    | _ => none

/-- Matcher for `\bdot\b(?!\.)` → `cdot`. -/
def mDotBare (prev : Option Char) (s : List Char) : Option (List Char × Nat) :=
  if (prev.map isWordChar).getD false then none
  else
    match s with
    | 'd' :: 'o' :: 't' :: after =>
      match after.head? with
      | none => some ("cdot".toList, 3)
      | some c => if ¬ isWordChar c ∧ c ≠ '.' then some ("cdot".toList, 3) else none
    | _ => none

/-- Matcher for `,\s*,` → `,`. -/
def mCommaComma (_ : Option Char) (s : List Char) : Option (List Char × Nat) :=
  match s with
  | ',' :: r =>
    let w := r.takeWhile isPyWs
    if ',' ∈ (r.drop w.length).take 1 then some ([','], 2 + w.length) else none
  | _ => none

/-- Matcher for `\(\s*,` → `(`. -/
def mParenComma (_ : Option Char) (s : List Char) : Option (List Char × Nat) :=
  match s with
  | '(' :: r =>
    let w := r.takeWhile isPyWs
    if ',' ∈ (r.drop w.length).take 1 then some (['('], 2 + w.length) else none
  | _ => none

/-- Matcher for `,\s*\)` → `)`. -/
def mCommaParen (_ : Option Char) (s : List Char) : Option (List Char × Nat) :=
  match s with
  | ',' :: r =>
    let w := r.takeWhile isPyWs
    if ')' ∈ (r.drop w.length).take 1 then some ([')'], 2 + w.length) else none
  | _ => none

/-- Matcher for `\n{4,}` → `\n\n\n`. -/
def mNl4 (_ : Option Char) (s : List Char) : Option (List Char × Nat) :=
  let r := s.takeWhile (· = '\n')
  if 4 ≤ r.length then some (['\n', '\n', '\n'], r.length) else none

/-- The ordered LaTeX-token replacement table of `sanitize_typst_code`
(source lines 96–118), applied with `str.replace` in this exact order. -/
def latexTokenTable : List (List Char × List Char) :=
  [("\\frac".toList, "frac".toList),
   ("\\sqrt".toList, "sqrt".toList),
   ("\\cdot".toList, "cdot".toList),
   ("\\times".toList, "times".toList),
   ("\\div".toList, "div".toList),
   ("\\pm".toList, "plus.minus".toList),
   ("\\infty".toList, "infinity".toList),
   ("\\pi".toList, "pi".toList),
   ("\\alpha".toList, "alpha".toList),
   ("\\beta".toList, "beta".toList),
   ("\\gamma".toList, "gamma".toList),
   ("\\theta".toList, "theta".toList),
   ("\\Delta".toList, "Delta".toList),
   ("\\sum".toList, "sum".toList),
   ("\\int".toList, "integral".toList),
   ("\\lim".toList, "lim".toList),
   ("\\rightarrow".toList, "->".toList),
   ("\\leftarrow".toList, "<-".toList),
   ("\\Rightarrow".toList, "=>".toList),
   ("\\neq".toList, "eq.not".toList),
   ("\\leq".toList, "<=".toList),
   ("\\geq".toList, ">=".toList),
   ("\\approx".toList, "approx".toList)]

/-- `sanitize_typst_code` (backend/app/core/sanitizer.py lines 46–128), the
full pass sequence in source order. -/
def sanitize_typst_code (code : List Char) : List Char :=
  if code = [] then []
  else
    let c := fix_decimal_commas_in_math code
    let c := strip_markdown_fences c
    let c := runSub mFontSetText c
    let c := replaceAll "arrow 0".toList "-> 0".toList c
    let c := replaceAll "arrow.r 0".toList "-> 0".toList c
    let c := runSub mArrowDigit c
    let c := runSub (mAmpQuoted "for".toList) c
    let c := runSub (mAmpQuoted "hvis".toList) c
    let c := runSub (mAmpQuoted "når".toList) c
    let c := runSub mDigitQuote c
    let c := runSub (mDVar 'x') c
    let c := runSub (mDVar 't') c
    let c := runSub (mDVar 'y') c
    let c := replaceAll "dot.c.c".toList "cdot".toList c
    let c := replaceAll "dot.c".toList "cdot".toList c
    let c := runSub mDotBare c
    let c := (latexTokenTable.foldl (fun acc pr => replaceAll pr.1 pr.2 acc) c)
    let c := runSub mCommaComma c
    let c := runSub mParenComma c
    let c := runSub mCommaParen c
    let c := runSub mNl4 c
    pyStrip c

end Sanitizer

namespace CodeSanitizer

/-!  matultimate-backend/backend/app/core/sanitizer.py — `CodeSanitizer`.
All six `CODE_FENCE_PATTERNS` are compiled with `re.MULTILINE` and applied
in order as separate `sub` passes, followed by a line-by-line filter. -/

structure SanitizeResult where
  cleaned_code : List Char
  changes_made : List (List Char)
  warnings : List (List Char)
deriving DecidableEq, Repr

/-- Apply a `^PREFIX\n?` MULTILINE sub: `tryLine` strips the matched prefix
from a line if the pattern matches at its start.  The optional `\n` is
consumed exactly when the remainder is empty and the line is not the last
one (`consumeNl` is false for the `^```$` pattern, which has no `\n?`). -/
def lineStartSub (consumeNl : Bool) (tryLine : List Char → Option (List Char)) :
    List (List Char) → List (List Char)
  | [] => []
  | [l] =>
    match tryLine l with
    | some r => [r]
    | none => [l]
  | l :: ls =>
    match tryLine l with
    | some r =>
      if consumeNl ∧ r = [] then lineStartSub consumeNl tryLine ls
      else r :: lineStartSub consumeNl tryLine ls
    | none => l :: lineStartSub consumeNl tryLine ls

/-- `^```(?:typst|typ)\n?` — alternation tried left to right. -/
def tryFenceTypst (l : List Char) : Option (List Char) :=
  match l with
  | '`' :: '`' :: '`' :: rest =>
    if "typst".toList.isPrefixOf rest then some (rest.drop 5)
    else if "typ".toList.isPrefixOf rest then some (rest.drop 3)
    else none
  | _ => none

/-- `^```(?:latex|tex)\n?`. -/
def tryFenceLatex (l : List Char) : Option (List Char) :=
  match l with
  | '`' :: '`' :: '`' :: rest =>
    if "latex".toList.isPrefixOf rest then some (rest.drop 5)
    else if "tex".toList.isPrefixOf rest then some (rest.drop 3)
    else none
  | _ => none

/-- `^```\w*\n?`. -/
def tryFenceWord (l : List Char) : Option (List Char) :=
  match l with
  | '`' :: '`' :: '`' :: rest => some (rest.dropWhile isWordChar)
  | _ => none

/-- `^```\n?`. -/
def tryFenceBare (l : List Char) : Option (List Char) :=
  match l with
  | '`' :: '`' :: '`' :: rest => some rest
  | _ => none

/-- `^```$`: the line must be exactly three backticks. -/
def tryFenceExact (l : List Char) : Option (List Char) :=
  if l = ['`', '`', '`'] then some [] else none

/-- Is the scan position at a line end (`$` under MULTILINE)? -/
def atLineEnd (s : List Char) : Bool :=
  match s with
  | [] => true
  | '\n' :: _ => true
  | _ => false

/-- `\n?```$` (MULTILINE): leftmost scan over the whole text; the greedy
`\n?` takes the preceding newline when present. -/
def endFenceGo : Nat → List Char → List Char
  | 0, s => s
  | _ + 1, [] => []
  | fuel + 1, c :: rest =>
    if c = '\n' ∧ "```".toList.isPrefixOf rest ∧ atLineEnd (rest.drop 3) then
      endFenceGo fuel (rest.drop 3)
    else if c = '`' ∧ "``".toList.isPrefixOf rest ∧ atLineEnd (rest.drop 2) then
      endFenceGo fuel (rest.drop 2)
    else c :: endFenceGo fuel rest

def endFencePass (s : List Char) : List Char := endFenceGo s.length s

/-- One regex pass of `_remove_code_fences` method 1: run the sub and record
the change message when the pattern matched.  (Every match deletes a
nonempty piece of text, so a match occurred iff the text changed.) -/
def fencePassStep (sub : List Char → List Char) (msg : List Char)
    (st : List Char × List (List Char)) : List Char × List (List Char) :=
  let r := sub st.1
  if r ≠ st.1 then (r, st.2 ++ [msg]) else (r, st.2)

def lineSub (consumeNl : Bool) (tryLine : List Char → Option (List Char))
    (s : List Char) : List Char :=
  joinNl (lineStartSub consumeNl tryLine (splitNl s))

/-- Method 2 of `_remove_code_fences`: drop every line whose stripped form
begins with three backticks, recording the 1-based line number. -/
def lineFilter (i : Nat) : List (List Char) → List (List Char) × List (List Char)
  | [] => ([], [])
  | l :: ls =>
    let (keep, msgs) := lineFilter (i + 1) ls
    if "```".toList.isPrefixOf (pyStrip l) then
      (keep, ("Fjernet code fence på linje ".toList ++ natChars (i + 1)) :: msgs)
    else (l :: keep, msgs)

/-- `_remove_code_fences` (sanitizer.py lines 114–141). -/
def remove_code_fences (code : List Char) : List Char × List (List Char) :=
  let st := ((code, ([] : List (List Char)))
    |> fencePassStep (lineSub true tryFenceTypst) "Fjernet code fence: ^```(?:typst|typ)\\n?".toList
    |> fencePassStep (lineSub true tryFenceLatex) "Fjernet code fence: ^```(?:latex|tex)\\n?".toList
    |> fencePassStep (lineSub true tryFenceWord) "Fjernet code fence: ^```\\w*\\n?".toList
    |> fencePassStep (lineSub true tryFenceBare) "Fjernet code fence: ^```\\n?".toList
    |> fencePassStep endFencePass "Fjernet code fence: \\n?```$".toList
    |> fencePassStep (lineSub false tryFenceExact) "Fjernet code fence: ^```$".toList)
  let (kept, msgs) := lineFilter 0 (splitNl st.1)
  (joinNl kept, st.2 ++ msgs)

/-- `_normalize_whitespace` (sanitizer.py lines 143–163). -/
def normalize_whitespace (code : List Char) : List Char × List (List Char) :=
  let lines := splitNl code
  let cleaned := lines.map (dropTrail isPyWs)
  let c1 : List (List Char) :=
    if lines ≠ cleaned then ["Fjernet trailing whitespace".toList] else []
  let result := joinNl cleaned
  let collapsed := runSub Sanitizer.mNl4 result
  let c2 : List (List Char) :=
    if collapsed ≠ result then ["Reduserte antall tomme linjer".toList] else []
  (collapsed, c1 ++ c2)

/-- Matcher for `\\frac\{([^}]+)\}\{([^}]+)\}` → `frac(\1, \2)`. -/
def mTexFrac (_ : Option Char) (s : List Char) : Option (List Char × Nat) :=
  if "\\frac\x7b".toList.isPrefixOf s then
    let r1 := s.drop 6
    let g1 := r1.takeWhile (· ≠ '\x7d')
    if g1 ≠ [] ∧ '\x7d' ∈ (r1.drop g1.length).take 1 then
      match r1.drop (g1.length + 1) with
      | '\x7b' :: r2 =>
        let g2 := r2.takeWhile (· ≠ '\x7d')
        if g2 ≠ [] ∧ '\x7d' ∈ (r2.drop g2.length).take 1 then
          some ("frac(".toList ++ g1 ++ ", ".toList ++ g2 ++ [')'],
            6 + g1.length + 2 + g2.length + 1)
        else none
      | _ => none
    else none
  else none

/-- Matcher for `\\sqrt\{([^}]+)\}` → `sqrt(\1)`. -/
def mTexSqrt (_ : Option Char) (s : List Char) : Option (List Char × Nat) :=
  if "\\sqrt\x7b".toList.isPrefixOf s then
    let r1 := s.drop 6
    let g1 := r1.takeWhile (· ≠ '\x7d')
    if g1 ≠ [] ∧ '\x7d' ∈ (r1.drop g1.length).take 1 then
      some ("sqrt(".toList ++ g1 ++ [')'], 6 + g1.length + 1)
    else none
  else none

/-- The `TYPST_FIXES` table as executable subs, in source order, paired with
the pattern text used in the change message. -/
def typstFixes : List ((List Char → List Char) × List Char) :=
  [(runSub mTexFrac, "\\\\frac\\\x7b([^\x7d]+)\\\x7d\\\x7b([^\x7d]+)\\\x7d".toList),
   (runSub mTexSqrt, "\\\\sqrt\\\x7b([^\x7d]+)\\\x7d".toList),
   (replaceAll "\\cdot".toList "dot".toList, "\\\\cdot".toList),
   (replaceAll "\\times".toList "times".toList, "\\\\times".toList),
   (replaceAll "\\infty".toList "oo".toList, "\\\\infty".toList)]

/-- The aggressive part of `_fix_typst`: apply `TYPST_FIXES`, recording a
change per pattern that altered the text. -/
def applyTypstFixes (code : List Char) : List Char × List (List Char) :=
  typstFixes.foldl
    (fun st fix =>
      let r := fix.1 st.1
      if r ≠ st.1 then (r, st.2 ++ [("Konverterte LaTeX til Typst: ".toList ++ fix.2)])
      else (r, st.2))
    (code, [])

/-- Does some line trigger `^(\s*)(FUNC\s+)` (MULTILINE)?  A match exists
iff some line consists of leading whitespace, then FUNC, then a whitespace
character (the line's own newline counts; end of input does not). -/
def lineTriggersFunc (func : List Char) : List (List Char) → Bool
  | [] => false
  | [l] =>
    let r := l.dropWhile isPyWs
    func.isPrefixOf r &&
      (match (r.drop func.length).head? with
       | some c => isPyWs c
       | none => false)
  | l :: ls =>
    (let r := l.dropWhile isPyWs
     func.isPrefixOf r &&
       (match (r.drop func.length).head? with
        | some c => isPyWs c
        | none => true)) ||
    lineTriggersFunc func ls

def typstFunctionNames : List (List Char) :=
  ["set".toList, "let".toList, "import".toList, "include".toList,
   "show".toList, "if".toList, "for".toList, "while".toList]

/-- Warning messages of the missing-`#` check, in source order. -/
def missingHashWarnings (s : List Char) : List (List Char) :=
  (typstFunctionNames.filter (fun f => lineTriggersFunc f (splitNl s))).map
    (fun f => "Mulig manglende # før \x27".toList ++ f ++ ['\x27'])

/-- The three bracket-balance warnings of `_fix_typst`, in source order. -/
def balanceWarnings (s : List Char) : List (List Char) :=
  let ob : Int := (countChar '[' s : Int) - (countChar ']' s : Int)
  let op : Int := (countChar '(' s : Int) - (countChar ')' s : Int)
  let oc : Int := (countChar '\x7b' s : Int) - (countChar '\x7d' s : Int)
  (if ob ≠ 0 then ["Ubalanserte firkantparenteser: ".toList ++ intSignedChars ob] else []) ++
  (if op ≠ 0 then ["Ubalanserte parenteser: ".toList ++ intSignedChars op] else []) ++
  (if oc ≠ 0 then ["Ubalanserte krøllparenteser: ".toList ++ intSignedChars oc] else [])

/-- The LaTeX-leakage warnings of `_fix_typst` (checked on the input text,
before the aggressive fixes), in source order. -/
def latexIndicatorWarnings (s : List Char) : List (List Char) :=
  (if containsSub "\\begin\x7b".toList s then
    ["Fant \\begin\x7b\x7d - dette er LaTeX, ikke Typst".toList] else []) ++
  (if containsSub "\\end\x7b".toList s then
    ["Fant \\end\x7b\x7d - dette er LaTeX, ikke Typst".toList] else []) ++
  (if containsSub "\\usepackage".toList s then
    ["Fant \\usepackage - dette er LaTeX, ikke Typst".toList] else []) ++
  (if containsSub "\\documentclass".toList s then
    ["Fant \\documentclass - dette er LaTeX, ikke Typst".toList] else [])

/-- `_fix_typst` (sanitizer.py lines 165–216): returns
(result text, changes, warnings). -/
def fix_typst (code : List Char) (aggressive : Bool) :
    List Char × List (List Char) × List (List Char) :=
  let result := if aggressive then (applyTypstFixes code).1 else code
  let changes := if aggressive then (applyTypstFixes code).2 else []
  (result, changes, latexIndicatorWarnings code ++ balanceWarnings result ++
    missingHashWarnings result)

/-- Count non-overlapping occurrences of `\\begin\{(\w+)\}`-style patterns:
`kw` is the literal head (e.g. `\begin{`), followed by `\w+` and `}`. -/
def countEnvGo (kw : List Char) : Nat → List Char → Nat
  | 0, _ => 0
  | _ + 1, [] => 0
  | fuel + 1, c :: rest =>
    if kw.isPrefixOf (c :: rest) then
      let r := (c :: rest).drop kw.length
      let w := r.takeWhile isWordChar
      if w ≠ [] ∧ '\x7d' ∈ (r.drop w.length).take 1 then
        1 + countEnvGo kw fuel (r.drop (w.length + 1))
      else countEnvGo kw fuel rest
    else countEnvGo kw fuel rest

def countEnv (kw s : List Char) : Nat := countEnvGo kw s.length s

/-- Count non-overlapping occurrences of a literal pattern. -/
def countSubGo (pat : List Char) : Nat → List Char → Nat
  | 0, _ => 0
  | _ + 1, [] => 0
  | fuel + 1, c :: rest =>
    if pat.isPrefixOf (c :: rest) ∧ pat ≠ [] then
      1 + countSubGo pat fuel ((c :: rest).drop pat.length)
    else countSubGo pat fuel rest

def countSub (pat s : List Char) : Nat := countSubGo pat s.length s

/-- Does some line trigger `^TOK\s` (MULTILINE, no leading whitespace)? -/
def lineStartsTok (tok : List Char) : List (List Char) → Bool
  | [] => false
  | [l] =>
    tok.isPrefixOf l &&
      (match (l.drop tok.length).head? with
       | some c => isPyWs c
       | none => false)
  | l :: ls =>
    (tok.isPrefixOf l &&
      (match (l.drop tok.length).head? with
       | some c => isPyWs c
       | none => true)) ||
    lineStartsTok tok ls

/-- The Typst-leakage warnings of `_fix_latex`, in source order. -/
def typstIndicatorWarnings (s : List Char) : List (List Char) :=
  (if lineStartsTok "#set".toList (splitNl s) then
    ["Fant #set - dette er Typst, ikke LaTeX".toList] else []) ++
  (if lineStartsTok "#let".toList (splitNl s) then
    ["Fant #let - dette er Typst, ikke LaTeX".toList] else []) ++
  (if lineStartsTok "#import".toList (splitNl s) then
    ["Fant #import - dette er Typst, ikke LaTeX".toList] else [])

/-- The `\begin`/`\end` balance warning of `_fix_latex`. -/
def beginEndWarnings (s : List Char) : List (List Char) :=
  let b := countEnv "\\begin\x7b".toList s
  let e := countEnv "\\end\x7b".toList s
  if b ≠ e then
    ["Ubalanserte \\begin/\\end: ".toList ++ natChars b ++ " begin, ".toList ++
      natChars e ++ " end".toList]
  else []

/-- The odd-dollar warning of `_fix_latex`. -/
def dollarWarnings (s : List Char) : List (List Char) :=
  let actual := countChar '$' s - countSub "\\$".toList s
  if actual % 2 ≠ 0 then
    ["Oddetall av $ (math mode): ".toList ++ natChars actual]
  else []

/-- `_fix_latex` (sanitizer.py lines 218–255): `LATEX_FIXES` is empty, so
the text is returned unchanged and only warnings are produced. -/
def fix_latex (code : List Char) (_aggressive : Bool) :
    List Char × List (List Char) × List (List Char) :=
  (code, [], typstIndicatorWarnings code ++ beginEndWarnings code ++ dollarWarnings code)

/-- The result text after pass 1 (fence removal) and pass 2 (whitespace
normalization) of `sanitize`, before the format dispatch. -/
def normalizedText (code : List Char) : List Char :=
  (normalize_whitespace (remove_code_fences code).1).1

/-- The changes recorded by passes 1 and 2 of `sanitize`. -/
def normalizedChanges (code : List Char) : List (List Char) :=
  (remove_code_fences code).2 ++ (normalize_whitespace (remove_code_fences code).1).2

/-- `CodeSanitizer.sanitize` (sanitizer.py lines 66–112). -/
def sanitize (code : List Char) (format : List Char) (aggressive : Bool) :
    SanitizeResult :=
  if pyLower format = "typst".toList then
    ⟨pyStrip (fix_typst (normalizedText code) aggressive).1,
      normalizedChanges code ++ (fix_typst (normalizedText code) aggressive).2.1,
      (fix_typst (normalizedText code) aggressive).2.2⟩
  else if pyLower format = "latex".toList ∨ pyLower format = "tex".toList then
    ⟨pyStrip (fix_latex (normalizedText code) aggressive).1,
      normalizedChanges code ++ (fix_latex (normalizedText code) aggressive).2.1,
      (fix_latex (normalizedText code) aggressive).2.2⟩
  else
    ⟨pyStrip (normalizedText code), normalizedChanges code, []⟩

end CodeSanitizer

namespace BackendCompiler

/-!  backend/app/core/compiler.py — `DocumentCompiler.compile_hybrid`.
The whole call runs inside `with tempfile.TemporaryDirectory()`, which
creates and (on exit) removes the session directory, so the filesystem is
not threaded here.  `compile_latex_figure_to_png` catches every exception
internally and returns a `FigureResult`; it is modelled as an oracle.  The
`pdf_base64` field (a fixed re-encoding of `pdf_bytes`) and
`compilation_time_ms` (a wall-clock read) are omitted. -/

structure FigureResult where
  success : Bool
  png_bytes : Option (List Nat) := none
  log : List Char := []
deriving DecidableEq, Repr

structure CompilationResult where
  success : Bool
  pdf_bytes : Option (List Nat) := none
  log : List Char := []
  warnings : List (List Char) := []
deriving DecidableEq, Repr

structure Fig where
  id : List Char
  latex : List Char
deriving DecidableEq, Repr

/-- Outcome of the `typst compile` child process inside the try block:
either the process completed (success is judged solely by whether
`document.pdf` exists afterwards — the return code is not inspected), or an
exception was raised (timeout, missing binary, ...) and caught by the
generic handler. -/
inductive TypstOutcome where
  | run (pdf : Option (List Nat)) (stderr : List Char)
  | exc (msg : List Char)

structure Env where
  figureCompile : List Char → FigureResult
  typst : List Char → TypstOutcome

/-- The figure fan-out loop (compiler.py lines 125–133): sequential, in
request order; a success writes `figurer/<id>.png` into the session
directory, a failure appends a warning. -/
def figLoop (env : Env) : List Fig → List (List Char) → List (List Char)
  | [], acc => acc
  | fig :: rest, acc =>
    let res := env.figureCompile fig.latex
    if res.success then figLoop env rest acc
    else
      figLoop env rest
        (acc ++ ["Kunne ikke generere figur ".toList ++ fig.id ++ ": ".toList ++ res.log])

/-- `DocumentCompiler.compile_hybrid` (compiler.py lines 111–166). -/
def compile_hybrid (env : Env) (typst_code : List Char) (figures : List Fig) :
    CompilationResult :=
  let warnings := figLoop env figures []
  match env.typst typst_code with
  | .run (some b) _ => { success := true, pdf_bytes := some b, warnings := warnings }
  | .run none stderr =>
    { success := false, log := "Typst feilet: ".toList ++ stderr, warnings := warnings }
  | .exc m => { success := false, log := m, warnings := warnings }

end BackendCompiler

namespace MB

/-!  matultimate-backend/backend/app/core/compiler.py —
`DocumentCompiler.compile_hybrid`.  This snapshot sanitizes inside the
call, raises `CompilationError` on main-compile failure, and cleans its
session directory in a `finally` block.  The filesystem is modelled as the
list of paths that exist; child processes and the uuid read are oracles.
`compile_latex_figure_to_png` creates and cleans its own private session
and catches every exception, so it is abstracted as an oracle returning a
`FigureResult`. -/

structure FigureResult where
  success : Bool
  png_bytes : Option (List Nat) := none
  log : List Char := []
deriving DecidableEq, Repr

structure CompilationResult where
  success : Bool
  pdf_bytes : Option (List Nat) := none
  log : List Char := []
  warnings : List (List Char) := []
  source_code : List Char := []
deriving DecidableEq, Repr

/-- The `CompilationError` exception (compiler.py lines 30–35). -/
structure CompilationError where
  msg : List Char
  log : List Char := []
  source_code : List Char := []
deriving DecidableEq, Repr

/-- One entry of the `figures` list of dicts; `compile_hybrid` reads
`fig.get('id', f'fig_{i}')` and `fig.get('latex', '')`. -/
structure FigSpec where
  id : Option (List Char)
  latex : Option (List Char)
deriving DecidableEq, Repr

/-- Outcome of the `typst compile` child process: `wait_for` timed out, or
the process completed with a return code, captured output, and possibly a
produced `document.pdf`. -/
inductive TypstOutcome where
  | timeout
  | run (returncode : Int) (stdout stderr : List Char) (pdf : Option (List Nat))

structure Env where
  figureCompile : List Char → FigureResult
  typst : List Char → TypstOutcome
  work_dir : List Char   -- self.work_dir
  sessionId : List Char  -- str(uuid.uuid4())[:8]

/-- The filesystem: the set of paths that currently exist. -/
abbrev Fs := List (List Char)

/-- `_cleanup_session` (compiler.py lines 108–111): remove the session
subtree unless `keep_temp_files` is set; run in the `finally` block of every
compile method. -/
def cleanup_session (keep_temp_files : Bool) (session_dir : List Char) (fs : Fs) : Fs :=
  if keep_temp_files then fs else fs.filter (fun p => !(session_dir.isPrefixOf p))

/-- The figure fan-out loop (compiler.py lines 472–489): sequential over
`enumerate(figures)`; returns the warnings in append order and the png
paths written under the session's `figurer/` directory. -/
def figLoop (env : Env) (figDir : List Char) :
    Nat → List FigSpec → List (List Char) × List (List Char)
  | _, [] => ([], [])
  | i, fig :: rest =>
    let fig_id := fig.id.getD ("fig_".toList ++ natChars i)
    let latex := fig.latex.getD []
    let (ws, ps) := figLoop env figDir (i + 1) rest
    if latex = [] then
      (("Figur ".toList ++ fig_id ++ " har tom LaTeX-kode".toList) :: ws, ps)
    else
      let res := env.figureCompile latex
      if res.success then (ws, (figDir ++ '/' :: fig_id ++ ".png".toList) :: ps)
      else (("Figur ".toList ++ fig_id ++ " feilet: ".toList ++ res.log) :: ws, ps)

/-- The try-block of `DocumentCompiler.compile_hybrid` (compiler.py lines
443–564): figure fan-out, placeholder rewrite, sanitize, main typst run.
A raised `CompilationError` is the `Except.error` case. -/
def compile_hybrid_body (env : Env) (typst_code : List Char) (figures : List FigSpec)
    (sanitizeFlag : Bool) (timeoutSecs : Nat) (fs : Fs) :
    Except CompilationError CompilationResult × Fs :=
  let session_dir := env.work_dir ++ "/compile_".toList ++ env.sessionId
  let figures_dir := session_dir ++ "/figurer".toList
  let fs := fs ++ [session_dir, figures_dir]
  let (figWs, pngs) := figLoop env figures_dir 0 figures
  let fs := fs ++ pngs
  let processed :=
    replaceAll "#image(\"figurer/".toList
      ("#image(\"".toList ++ figures_dir ++ ['/']) typst_code
  let (processed, warnings) :=
    if sanitizeFlag then
      let sr := CodeSanitizer.sanitize processed "typst".toList false
      (sr.cleaned_code, figWs ++ sr.warnings)
    else (processed, figWs)
  let fs := fs ++ [session_dir ++ "/document.typ".toList]
  match env.typst processed with
  | .timeout =>
    (Except.error
      ⟨"Hybrid-kompilering tok mer enn ".toList ++ natChars timeoutSecs ++
        " sekunder".toList, [], typst_code⟩, fs)
  | .run rc out err pdf =>
    if rc ≠ 0 then
      (Except.error
        ⟨"Typst-kompilering feilet (kode ".toList ++ intChars rc ++ [')'],
          out ++ err, processed⟩, fs)
    else
      match pdf with
      | none =>
        (Except.error ⟨"PDF ble ikke opprettet".toList, out ++ err, processed⟩, fs)
      | some b =>
        (Except.ok
          { success := true, pdf_bytes := some b, log := out ++ err,
            warnings := warnings, source_code := processed },
         fs ++ [session_dir ++ "/document.pdf".toList])

/-- `DocumentCompiler.compile_hybrid` (compiler.py lines 443–564): the
try-block above, with the `finally` block (`_cleanup_session`) applied to
the filesystem on every exit path. -/
def compile_hybrid (env : Env) (typst_code : List Char) (figures : List FigSpec)
    (sanitizeFlag : Bool) (timeoutSecs : Nat) (keep_temp_files : Bool) (fs : Fs) :
    Except CompilationError CompilationResult × Fs :=
  let session_dir := env.work_dir ++ "/compile_".toList ++ env.sessionId
  match compile_hybrid_body env typst_code figures sanitizeFlag timeoutSecs fs with
  | (res, fs2) => (res, cleanup_session keep_temp_files session_dir fs2)

end MB

namespace HybridCompiler

/-!  backend/app/core/hybrid_compiler.py — `HybridCompiler`.  The class
creates `tmp/matultimate_<uuid>` with `mkdir` and never removes it; there
is no debug-retain flag.  `_compile_typst` returns the produced pdf bytes,
or `b""` when `output.pdf` does not exist, with no other error channel. -/

structure Figure where
  latex_code : List Char
  description : List Char
deriving DecidableEq, Repr

structure Env where
  uid : List Char                            -- uuid.uuid4() read
  pdflatexPdf : List Char → Bool             -- pdflatex produced the .pdf?
  pdftoppmPng : List Char → Bool             -- pdftoppm produced the .png?
  typstPdf : List Char → Option (List Nat)   -- typst produced output.pdf?

abbrev Fs := List (List Char)

/-- The fixed standalone LaTeX wrapper of `_compile_figure_to_png`. -/
def wrapStandalone (latex : List Char) : List Char :=
  "\n\\documentclass[tikz,border=5pt]\x7bstandalone\x7d\n\\usepackage\x7bpgfplots\x7d\n\\pgfplotsset\x7bcompat=1.18\x7d\n\\usepackage\x7bamsmath\x7d\n\\begin\x7bdocument\x7d\n".toList
    ++ latex ++ "\n\\end\x7bdocument\x7d\n".toList

/-- `_compile_figure_to_png` (hybrid_compiler.py lines 50–85): writes the
`.tex` file, runs pdflatex (return code ignored), converts to png only when
the pdf exists, and returns `output_path` unconditionally. -/
def compile_figure_to_png (env : Env) (latex : List Char) (stem : List Char)
    (fs : Fs) : List Char × Fs :=
  let wrapped := wrapStandalone latex
  let fs := fs ++ [stem ++ ".tex".toList]
  let fs := if env.pdflatexPdf wrapped then fs ++ [stem ++ ".pdf".toList] else fs
  let fs :=
    if env.pdflatexPdf wrapped ∧ env.pdftoppmPng wrapped then
      fs ++ [stem ++ ".png".toList]
    else fs
  (stem ++ ".png".toList, fs)

/-- `_compile_typst` (hybrid_compiler.py lines 87–102): writes `main.typ`,
invokes typst (return code ignored), and returns the pdf bytes if
`output.pdf` exists, else the empty byte string. -/
def compile_typst (env : Env) (content : List Char) (work_dir : List Char)
    (fs : Fs) : List Nat × Fs :=
  let fs := fs ++ [work_dir ++ "/main.typ".toList]
  match env.typstPdf content with
  | some b => (b, fs ++ [work_dir ++ "/output.pdf".toList])
  | none => ([], fs)

/-- The figure loop of `compile_hybrid` (lines 31–36). -/
def figLoop (env : Env) (figures_dir : List Char) :
    Nat → List Figure → Fs → Fs
  | _, [], fs => fs
  | i, fig :: rest, fs =>
    let stem := figures_dir ++ "/fig_".toList ++ natChars i
    let (_, fs) := compile_figure_to_png env fig.latex_code stem fs
    figLoop env figures_dir (i + 1) rest fs

/-- The placeholder rewrite loop of `compile_hybrid` (lines 40–44):
`final_typst.replace(f"fig_{i}.png", f"figures/fig_{i}.png")` for each
index. -/
def rewriteRefs : Nat → Nat → List Char → List Char
  | _, 0, doc => doc
  | i, n + 1, doc =>
    rewriteRefs (i + 1) n
      (replaceAll ("fig_".toList ++ natChars i ++ ".png".toList)
        ("figures/fig_".toList ++ natChars i ++ ".png".toList) doc)

/-- `HybridCompiler.compile_hybrid` (hybrid_compiler.py lines 18–48). -/
def compile_hybrid (env : Env) (main_document : List Char)
    (figures : List Figure) (fs : Fs) : List Nat × Fs :=
  let work_dir := "tmp/matultimate_".toList ++ env.uid
  let figures_dir := work_dir ++ "/figures".toList
  let fs := fs ++ [work_dir, figures_dir]
  let fs := figLoop env figures_dir 0 figures fs
  let final_typst := rewriteRefs 0 figures.length main_document
  compile_typst env final_typst work_dir fs

end HybridCompiler

/-- Project the success result of a matultimate compile, if any. -/
def mbOk? : Except MB.CompilationError MB.CompilationResult → Option MB.CompilationResult
  | .ok r => some r
  | .error _ => none

/-- Project the raised `CompilationError` of a matultimate compile, if any. -/
def mbErr? : Except MB.CompilationError MB.CompilationResult → Option MB.CompilationError
  | .ok _ => none
  | .error e => some e

theorem containsSub_append (pat l r : List Char) :
    containsSub pat (l ++ pat ++ r) = true := by
  rw [List.append_assoc]
  induction l with
  | nil =>
    cases hp : pat with
    | nil =>
      cases r with
      | nil => rfl
      | cons c cs => rfl
    | cons p ps =>
      simp only [List.nil_append, List.cons_append, containsSub, Bool.or_eq_true]
      exact Or.inl (List.isPrefixOf_iff_prefix.mpr ⟨r, by simp⟩)
  | cons x xs ih =>
    simp only [List.cons_append, containsSub, Bool.or_eq_true]
    exact Or.inr ih

theorem backend_figLoop_eq (env : BackendCompiler.Env)
    (figs : List BackendCompiler.Fig) (acc : List (List Char)) :
    BackendCompiler.figLoop env figs acc = acc ++ figs.filterMap (fun fig =>
      if (env.figureCompile fig.latex).success then none
      else some ("Kunne ikke generere figur ".toList ++ fig.id ++ ": ".toList ++
        (env.figureCompile fig.latex).log)) := by
  induction figs generalizing acc with
  | nil => simp [BackendCompiler.figLoop]
  | cons fig rest ih =>
    simp only [BackendCompiler.figLoop, List.filterMap_cons]
    by_cases h : (env.figureCompile fig.latex).success
    · simp [h, ih]
    · simp [h, ih]

example :
    Sanitizers.strip_markdown_fences ("```typst\nBODY\n```".toList) = "BODY".toList := by
  decide

example :
    (CodeSanitizer.sanitize "```typst\n#set text(lang: \"nb\")\n\n= Overskrift\n\nDette er tekst.\n```".toList "typst".toList false).cleaned_code
      = "#set text(lang: \"nb\")\n\n= Overskrift\n\nDette er tekst.".toList := by
  decide

example :
    (CodeSanitizer.sanitize ")".toList "typst".toList false).warnings
      = ["Ubalanserte parenteser: -1".toList] := by decide

example :
    (CodeSanitizer.sanitize "x``````".toList "typst".toList false).cleaned_code
      = "x```".toList := by decide

example :
    (CodeSanitizer.sanitize "x```".toList "typst".toList false).cleaned_code
      = "x".toList := by decide

example : Sanitizer.sanitize_typst_code ",,,".toList = ",,".toList := by decide

example : Sanitizer.sanitize_typst_code ",,".toList = ",".toList := by decide

example :
    Sanitizer.sanitize_typst_code "$1,5$ og \\frac d x".toList
      = "$1.5$ og frac dif x".toList := by decide

/-! ## Claim C1 — partial-failure tolerance of the hybrid compile -/

/-- Oracles for the C1 counterexample: the snippet `good` compiles, the
snippet `bad` fails with log `boom`, and the main typst compile always
succeeds (exit code 0, `document.pdf` produced). -/
def envC1cex : MB.Env where
  figureCompile := fun latex =>
    if latex = "good".toList then { success := true, png_bytes := some [1] }
    else { success := false, log := "boom".toList }
  typst := fun _ => MB.TypstOutcome.run 0 [] [] (some [37, 80, 68, 70])
  work_dir := "/tmp/matultimate".toList
  sessionId := "abc12345".toList

def figC1good : MB.FigSpec := ⟨some "fig_a".toList, some "good".toList⟩
def figC1bad : MB.FigSpec := ⟨some "fig_b".toList, some "bad".toList⟩

/-- **C1, counterexample.**  The matultimate snapshot's `compile_hybrid`
extends the returned warnings with the sanitizer's warnings, so a request
with one well-formed and one malformed figure whose main document `)`
compiles successfully returns `success = true` with TWO warnings (the figure
failure and the paren-balance warning), not exactly one as the claim
states. -/
theorem c1_counterexample :
    (mbOk? (MB.compile_hybrid envC1cex ")".toList [figC1good, figC1bad]
        true 60 false []).1).map (fun r => r.success) = some true ∧
    (mbOk? (MB.compile_hybrid envC1cex ")".toList [figC1good, figC1bad]
        true 60 false []).1).map (fun r => r.warnings) =
      some ["Figur fig_b feilet: boom".toList,
            "Ubalanserte parenteser: -1".toList] ∧
    (mbOk? (MB.compile_hybrid envC1cex ")".toList [figC1good, figC1bad]
        true 60 false []).1).map (fun r => r.warnings.length) ≠ some 1 := by
  refine ⟨?_, ?_, ?_⟩ <;> decide

/-- **C1 (amended).**  In `backend/app/core/compiler.py`'s
`DocumentCompiler.compile_hybrid` (which accumulates only figure warnings),
a request with one well-formed figure A and one malformed figure B whose
main compile succeeds returns `success = true` with exactly one warning,
and that warning contains B's id; the figure failure never aborts the
request.  This holds for both request orders.  (In the matultimate
snapshot the sanitizer may append further warnings; the figure-failure
warning is still exactly this one.) -/
theorem c1_partial_failure_tolerated (env : BackendCompiler.Env)
    (A B : BackendCompiler.Fig) (doc : List Char) (pdf : List Nat)
    (stderr : List Char)
    (hA : (env.figureCompile A.latex).success = true)
    (hB : (env.figureCompile B.latex).success = false)
    (hMain : env.typst doc = BackendCompiler.TypstOutcome.run (some pdf) stderr) :
    (BackendCompiler.compile_hybrid env doc [A, B]).success = true ∧
    (BackendCompiler.compile_hybrid env doc [A, B]).warnings =
      ["Kunne ikke generere figur ".toList ++ B.id ++ ": ".toList ++
        (env.figureCompile B.latex).log] ∧
    (BackendCompiler.compile_hybrid env doc [B, A]).success = true ∧
    (BackendCompiler.compile_hybrid env doc [B, A]).warnings =
      ["Kunne ikke generere figur ".toList ++ B.id ++ ": ".toList ++
        (env.figureCompile B.latex).log] ∧
    containsSub B.id ("Kunne ikke generere figur ".toList ++ B.id ++ ": ".toList ++
      (env.figureCompile B.latex).log) = true := by
  have hw1 := backend_figLoop_eq env [A, B] []
  have hw2 := backend_figLoop_eq env [B, A] []
  refine ⟨?_, ?_, ?_, ?_,
    by simpa [List.append_assoc] using
      containsSub_append B.id ("Kunne ikke generere figur ".toList)
        (": ".toList ++ (env.figureCompile B.latex).log)⟩ <;>
    simp [BackendCompiler.compile_hybrid, hMain, hw1, hw2, hA, hB]

def envC1w : BackendCompiler.Env where
  figureCompile := fun latex =>
    if latex = "ok".toList then { success := true, png_bytes := some [2] }
    else { success := false, log := "boom".toList }
  typst := fun _ => BackendCompiler.TypstOutcome.run (some [37]) []

def figC1wA : BackendCompiler.Fig := ⟨"a".toList, "ok".toList⟩
def figC1wB : BackendCompiler.Fig := ⟨"b".toList, "bad".toList⟩

/-- **C1, witness** at a concrete request. -/
theorem c1_witness :
    (BackendCompiler.compile_hybrid envC1w "doc".toList [figC1wA, figC1wB]).success = true ∧
    (BackendCompiler.compile_hybrid envC1w "doc".toList [figC1wA, figC1wB]).warnings =
      ["Kunne ikke generere figur ".toList ++ figC1wB.id ++ ": ".toList ++
        (envC1w.figureCompile figC1wB.latex).log] ∧
    (BackendCompiler.compile_hybrid envC1w "doc".toList [figC1wB, figC1wA]).success = true ∧
    (BackendCompiler.compile_hybrid envC1w "doc".toList [figC1wB, figC1wA]).warnings =
      ["Kunne ikke generere figur ".toList ++ figC1wB.id ++ ": ".toList ++
        (envC1w.figureCompile figC1wB.latex).log] ∧
    containsSub figC1wB.id ("Kunne ikke generere figur ".toList ++ figC1wB.id ++ ": ".toList ++
      (envC1w.figureCompile figC1wB.latex).log) = true :=
  c1_partial_failure_tolerated envC1w figC1wA figC1wB "doc".toList [37] [] rfl rfl rfl

/-! ## Claim C2 — main-compile failure surfaces as a failed result -/

def envC2cex : MB.Env where
  figureCompile := fun _ => { success := true, png_bytes := some [1] }
  typst := fun _ => MB.TypstOutcome.run 1 [] "err".toList none
  work_dir := "/tmp/matultimate".toList
  sessionId := "abc12345".toList

/-- **C2, counterexample.**  In the matultimate snapshot a failing main
compile does not return a `success = false` result: `compile_hybrid` raises
`CompilationError` to its caller (exit code 1 here), so the pipeline entry
point does propagate the failure as an exception. -/
theorem c2_counterexample :
    mbOk? (MB.compile_hybrid envC2cex "doc".toList [] true 60 false []).1 = none ∧
    mbErr? (MB.compile_hybrid envC2cex "doc".toList [] true 60 false []).1 =
      some ⟨"Typst-kompilering feilet (kode 1)".toList, "err".toList, "doc".toList⟩ := by
  constructor <;> decide

/-- **C2 (amended).**  In `backend/app/core/compiler.py`'s
`DocumentCompiler.compile_hybrid`, when the main typst run produces no
output artifact the call returns a well-formed result with
`success = false`, no pdf bytes and a non-empty log — no exception escapes
(the generic handler also returns a failed result).  The matultimate
snapshot instead raises `CompilationError` carrying the diagnostics. -/
theorem c2_main_failure_returns_result (env : BackendCompiler.Env)
    (code : List Char) (figs : List BackendCompiler.Fig) (stderr : List Char)
    (hMain : env.typst code = BackendCompiler.TypstOutcome.run none stderr) :
    (BackendCompiler.compile_hybrid env code figs).success = false ∧
    (BackendCompiler.compile_hybrid env code figs).pdf_bytes = none ∧
    (BackendCompiler.compile_hybrid env code figs).log ≠ [] := by
  refine ⟨?_, ?_, ?_⟩ <;> simp [BackendCompiler.compile_hybrid, hMain]

def envC2w : BackendCompiler.Env where
  figureCompile := fun _ => { success := true, png_bytes := some [2] }
  typst := fun _ => BackendCompiler.TypstOutcome.run none "e".toList

/-- **C2, witness** at a concrete failing main compile. -/
theorem c2_witness :
    (BackendCompiler.compile_hybrid envC2w "doc".toList []).success = false ∧
    (BackendCompiler.compile_hybrid envC2w "doc".toList []).pdf_bytes = none ∧
    (BackendCompiler.compile_hybrid envC2w "doc".toList []).log ≠ [] :=
  c2_main_failure_returns_result envC2w "doc".toList [] "e".toList rfl

/-! ## Claim C5 — session cleanup on every exit path -/

/-- **C5, counterexample.**  `HybridCompiler.compile_hybrid` creates
`tmp/matultimate_<uuid>` and never removes it (and the class has no
debug-retain flag), so after the call the working directory still exists. -/
def envC5cex : HybridCompiler.Env :=
  ⟨"u".toList, fun _ => false, fun _ => false, fun _ => none⟩

theorem c5_counterexample :
    "tmp/matultimate_u".toList ∈
      (HybridCompiler.compile_hybrid envC5cex "doc".toList [] []).2 := by decide

/-- **C5 (amended).**  The matultimate `DocumentCompiler.compile_hybrid`
removes the whole session subtree in its `finally` block on every exit path
(success, figure failure, raised `CompilationError`) whenever the
`keep_temp_files` debug flag is off: no session-prefixed path exists
afterwards.  `HybridCompiler.compile_hybrid` violates the claim (see the
counterexample). -/
theorem c5_session_cleanup (env : MB.Env) (code : List Char)
    (figures : List MB.FigSpec) (sanitizeFlag : Bool) (timeoutSecs : Nat)
    (fs : MB.Fs) (p : List Char)
    (hp : (env.work_dir ++ "/compile_".toList ++ env.sessionId).isPrefixOf p = true) :
    p ∉ (MB.compile_hybrid env code figures sanitizeFlag timeoutSecs false fs).2 := by
  have hclean : ∀ (d : List Char) (xs : MB.Fs), d.isPrefixOf p = true →
      p ∉ MB.cleanup_session false d xs := by
    intro d xs hd hmem
    simp only [MB.cleanup_session, if_neg Bool.false_ne_true, List.mem_filter] at hmem
    rw [hd] at hmem
    simp at hmem
  simp only [MB.compile_hybrid]
  rcases hb : MB.compile_hybrid_body env code figures sanitizeFlag timeoutSecs fs with ⟨r, f⟩
  exact hclean _ _ hp

def envC5w : MB.Env where
  figureCompile := fun _ => { success := false, log := "l".toList }
  typst := fun _ => MB.TypstOutcome.run 0 [] [] (some [9])
  work_dir := "/w".toList
  sessionId := "s1".toList

/-- **C5, witness**: after a concrete successful compile the session
directory itself is gone. -/
theorem c5_witness :
    "/w/compile_s1".toList ∉
      (MB.compile_hybrid envC5w "x".toList [] true 60 false []).2 :=
  c5_session_cleanup envC5w "x".toList [] true 60 [] "/w/compile_s1".toList (by decide)

/-! ## Claim C6 — warning order -/

def envC6cex : BackendCompiler.Env where
  figureCompile := fun _ => { success := false, log := "x".toList }
  typst := fun _ => BackendCompiler.TypstOutcome.run (some [1]) []

/-- **C6, counterexample.**  With figures listed in the order `b`, `a`
(both failing), the returned warnings are in request order, not sorted by
`fig.id`: the claimed id-sorted list differs from the actual one. -/
theorem c6_counterexample :
    (BackendCompiler.compile_hybrid envC6cex "doc".toList
        [⟨"b".toList, "lb".toList⟩, ⟨"a".toList, "la".toList⟩]).warnings =
      ["Kunne ikke generere figur b: x".toList,
       "Kunne ikke generere figur a: x".toList] ∧
    (BackendCompiler.compile_hybrid envC6cex "doc".toList
        [⟨"b".toList, "lb".toList⟩, ⟨"a".toList, "la".toList⟩]).warnings ≠
      ["Kunne ikke generere figur a: x".toList,
       "Kunne ikke generere figur b: x".toList] := by
  constructor <;> decide

/-- **C6 (amended).**  The figure-failure warnings are assembled
deterministically in the order the figures appear in the request (the loop
is sequential), not sorted by `fig.id`: they are exactly the request-order
`filterMap` of the failing figures, whatever the main compile does. -/
theorem c6_warnings_request_order (env : BackendCompiler.Env) (code : List Char)
    (figs : List BackendCompiler.Fig) :
    (BackendCompiler.compile_hybrid env code figs).warnings =
      figs.filterMap (fun fig =>
        if (env.figureCompile fig.latex).success then none
        else some ("Kunne ikke generere figur ".toList ++ fig.id ++ ": ".toList ++
          (env.figureCompile fig.latex).log)) := by
  have h := backend_figLoop_eq env figs []
  cases hT : env.typst code with
  | run pdf stderr =>
    cases pdf <;> simp [BackendCompiler.compile_hybrid, hT, h]
  | exc m => simp [BackendCompiler.compile_hybrid, hT, h]

/-! ## Claim C9 — empty input -/

/-- **C9.**  On the empty string both sanitizer entry points return the
empty string via the `if not code` guard (the same guard also covers
None-like falsy input, which lies outside the string domain modelled
here). -/
theorem c9_empty_input :
    Sanitizers.strip_markdown_fences [] = [] ∧
    Sanitizer.sanitize_typst_code [] = [] := by
  constructor <;> rfl

/-! ## Claim C10 — missing pdf yields empty bytes with no error channel -/

/-- **C10.**  When typst produces no `output.pdf`,
`HybridCompiler.compile_hybrid` returns the empty byte string; and an
environment whose typst produces a genuinely empty artifact returns the
same value, so the caller cannot distinguish the two cases (the return
type carries no error indication). -/
theorem c10_empty_bytes_on_missing_pdf (env1 env2 : HybridCompiler.Env)
    (doc : List Char) (figures : List HybridCompiler.Figure)
    (fs1 fs2 : HybridCompiler.Fs)
    (h1 : ∀ c, env1.typstPdf c = none)
    (h2 : ∀ c, env2.typstPdf c = some []) :
    (HybridCompiler.compile_hybrid env1 doc figures fs1).1 = [] ∧
    (HybridCompiler.compile_hybrid env2 doc figures fs2).1 = [] ∧
    (HybridCompiler.compile_hybrid env1 doc figures fs1).1 =
      (HybridCompiler.compile_hybrid env2 doc figures fs2).1 := by
  refine ⟨?_, ?_, ?_⟩ <;>
    simp [HybridCompiler.compile_hybrid, HybridCompiler.compile_typst, h1, h2]

def envC10a : HybridCompiler.Env :=
  ⟨"u".toList, fun _ => true, fun _ => true, fun _ => none⟩

def envC10b : HybridCompiler.Env :=
  ⟨"u".toList, fun _ => true, fun _ => true, fun _ => some []⟩

/-- **C10, witness** at concrete environments. -/
theorem c10_witness :
    (HybridCompiler.compile_hybrid envC10a "d".toList [] []).1 = [] ∧
    (HybridCompiler.compile_hybrid envC10b "d".toList [] []).1 = [] ∧
    (HybridCompiler.compile_hybrid envC10a "d".toList [] []).1 =
      (HybridCompiler.compile_hybrid envC10b "d".toList [] []).1 :=
  c10_empty_bytes_on_missing_pdf envC10a envC10b "d".toList [] [] []
    (fun _ => rfl) (fun _ => rfl)

/-! ## Claim C7 — sanitize is a total pure function -/

/-- The pure text pipeline of `CodeSanitizer.sanitize`, with all
warning/change machinery erased: fence removal, whitespace normalization,
the aggressive Typst fixes (the LaTeX fix table is empty), and the final
strip. -/
def cleanedTextPipeline (code format : List Char) (aggressive : Bool) : List Char :=
  if pyLower format = "typst".toList then
    pyStrip (if aggressive then (CodeSanitizer.applyTypstFixes (CodeSanitizer.normalizedText code)).1
             else CodeSanitizer.normalizedText code)
  else pyStrip (CodeSanitizer.normalizedText code)

/-- **C7.**  `CodeSanitizer.sanitize` is total and pure by construction (a
Lean function of its arguments, defined for every input string and every
format tag), and the warning machinery never aborts or influences the
cleaning: for every input — malformed or not — the cleaned text equals the
warning-free pass pipeline, so malformed input can only add warnings. -/
theorem c7_sanitize_total_pure (code format : List Char) (aggressive : Bool) :
    (CodeSanitizer.sanitize code format aggressive).cleaned_code =
      cleanedTextPipeline code format aggressive := by
  delta CodeSanitizer.sanitize cleanedTextPipeline
  generalize CodeSanitizer.normalizedText code = r2
  by_cases h1 : pyLower format = "typst".toList
  · rw [if_pos h1, if_pos h1]
    rfl
  · by_cases h2 : pyLower format = "latex".toList ∨ pyLower format = "tex".toList
    · rw [if_neg h1, if_neg h1, if_pos h2]
      rfl
    · rw [if_neg h1, if_neg h1, if_neg h2]

/-! ## Claim C8 — balance checks warn but never modify or abort -/

/-- **C8.**  The structural balance checks only record warnings: the text
component of `_fix_typst` is exactly the (aggressive-only) fix application
and that of `_fix_latex` is the unchanged input; whenever the
bracket/paren/brace counts (or the `\begin`/`\end` counts) are imbalanced,
the corresponding warning message is in the returned warnings, and a
result is still returned (the functions are total). -/
theorem c8_balance_check_warns_only (code : List Char) (aggressive : Bool) :
    ((CodeSanitizer.fix_typst code aggressive).1 =
      (if aggressive then (CodeSanitizer.applyTypstFixes code).1 else code)) ∧
    ((CodeSanitizer.fix_latex code aggressive).1 = code) ∧
    (((countChar '[' (CodeSanitizer.fix_typst code aggressive).1 : Int) -
        (countChar ']' (CodeSanitizer.fix_typst code aggressive).1 : Int)) ≠ 0 →
      ("Ubalanserte firkantparenteser: ".toList ++
        intSignedChars ((countChar '[' (CodeSanitizer.fix_typst code aggressive).1 : Int) -
          (countChar ']' (CodeSanitizer.fix_typst code aggressive).1 : Int))) ∈
        (CodeSanitizer.fix_typst code aggressive).2.2) ∧
    (((countChar '(' (CodeSanitizer.fix_typst code aggressive).1 : Int) -
        (countChar ')' (CodeSanitizer.fix_typst code aggressive).1 : Int)) ≠ 0 →
      ("Ubalanserte parenteser: ".toList ++
        intSignedChars ((countChar '(' (CodeSanitizer.fix_typst code aggressive).1 : Int) -
          (countChar ')' (CodeSanitizer.fix_typst code aggressive).1 : Int))) ∈
        (CodeSanitizer.fix_typst code aggressive).2.2) ∧
    (((countChar '\x7b' (CodeSanitizer.fix_typst code aggressive).1 : Int) -
        (countChar '\x7d' (CodeSanitizer.fix_typst code aggressive).1 : Int)) ≠ 0 →
      ("Ubalanserte krøllparenteser: ".toList ++
        intSignedChars ((countChar '\x7b' (CodeSanitizer.fix_typst code aggressive).1 : Int) -
          (countChar '\x7d' (CodeSanitizer.fix_typst code aggressive).1 : Int))) ∈
        (CodeSanitizer.fix_typst code aggressive).2.2) ∧
    (CodeSanitizer.countEnv "\\begin\x7b".toList code ≠
        CodeSanitizer.countEnv "\\end\x7b".toList code →
      ("Ubalanserte \\begin/\\end: ".toList ++
        natChars (CodeSanitizer.countEnv "\\begin\x7b".toList code) ++
        " begin, ".toList ++
        natChars (CodeSanitizer.countEnv "\\end\x7b".toList code) ++ " end".toList) ∈
        (CodeSanitizer.fix_latex code aggressive).2.2) := by
  refine ⟨rfl, rfl, ?_, ?_, ?_, ?_⟩
  · intro h
    simp only [CodeSanitizer.fix_typst, CodeSanitizer.balanceWarnings] at h ⊢
    rw [if_pos h]
    simp [List.mem_append]
  · intro h
    simp only [CodeSanitizer.fix_typst, CodeSanitizer.balanceWarnings] at h ⊢
    rw [if_pos h]
    simp [List.mem_append]
  · intro h
    simp only [CodeSanitizer.fix_typst, CodeSanitizer.balanceWarnings] at h ⊢
    rw [if_pos h]
    simp [List.mem_append]
  · intro h
    simp only [CodeSanitizer.fix_latex, CodeSanitizer.beginEndWarnings]
    rw [if_pos h]
    simp [List.mem_append]

/-- **C8, witness**: a concrete paren imbalance (`((`, count `+2`) and a
concrete `\begin`/`\end` imbalance. -/
theorem c8_witness :
    ("Ubalanserte parenteser: +2".toList ∈
      (CodeSanitizer.fix_typst "((".toList false).2.2) ∧
    ("Ubalanserte \\begin/\\end: 1 begin, 0 end".toList ∈
      (CodeSanitizer.fix_latex "\\begin\x7beq\x7d".toList false).2.2) :=
  ⟨(c8_balance_check_warns_only "((".toList false).2.2.2.1 (by decide),
   (c8_balance_check_warns_only "\\begin\x7beq\x7d".toList false).2.2.2.2.2 (by decide)⟩

/-! ## Claim C4 — fence stripping round trip -/

theorem dropWhile_cons_false {p : Char → Bool} {a : Char} {t : List Char}
    (h : p a = false) : (a :: t).dropWhile p = a :: t := by
  simp [List.dropWhile_cons, h]

theorem length_dropWhile_le (p : Char → Bool) (t : List Char) :
    (t.dropWhile p).length ≤ t.length := by
  induction t with
  | nil => simp
  | cons a s ih =>
    rw [List.dropWhile_cons]
    by_cases h : p a
    · simp only [if_pos h]
      exact Nat.le_trans ih (Nat.le_succ _)
    · simp [if_neg h]

theorem dropWhile_head_false {p : Char → Bool} {a : Char} {t : List Char}
    (h : (a :: t).dropWhile p = a :: t) : p a = false := by
  by_contra hc
  rw [Bool.not_eq_false] at hc
  rw [List.dropWhile_cons, if_pos hc] at h
  have hlen := congrArg List.length h
  have hle := length_dropWhile_le p t
  simp at hlen
  omega

theorem dropWhile_append_left {p : Char → Bool} {s : List Char}
    (h : s.dropWhile p = s) (hne : s ≠ []) (m : List Char) :
    (s ++ m).dropWhile p = s ++ m := by
  cases s with
  | nil => exact absurd rfl hne
  | cons a t =>
    have ha := dropWhile_head_false h
    simpa using dropWhile_cons_false (t := t ++ m) ha

theorem dropTrail_eq_rdropWhile (p : Char → Bool) (s : List Char) :
    dropTrail p s = s.rdropWhile p := rfl

theorem dropTrail_concat_pos {p : Char → Bool} {x : Char} (hx : p x = true)
    (l : List Char) : dropTrail p (l ++ [x]) = dropTrail p l := by
  rw [dropTrail_eq_rdropWhile, dropTrail_eq_rdropWhile]
  exact List.rdropWhile_concat_pos p l x (by simp [hx])

theorem dropTrail_append_right {p : Char → Bool} {m : List Char}
    (hm : dropTrail p m = m) (hne : m ≠ []) (l : List Char) :
    dropTrail p (l ++ m) = l ++ m := by
  have hmrev : m.reverse.dropWhile p = m.reverse := by
    have h2 := congrArg List.reverse hm
    simpa [dropTrail] using h2
  show ((l ++ m).reverse.dropWhile p).reverse = l ++ m
  rw [List.reverse_append, dropWhile_append_left hmrev (by simpa using hne)]
  simp

theorem pyStrip_eq_self {s : List Char} (h1 : s.dropWhile isPyWs = s)
    (h2 : dropTrail isPyWs s = s) : pyStrip s = s := by
  unfold pyStrip
  rw [h1, h2]

theorem dropWhile_rdropWhile {p : Char → Bool} {y : List Char}
    (h : y.dropWhile p = y) : (y.rdropWhile p).dropWhile p = y.rdropWhile p := by
  rcases hz : y.rdropWhile p with _ | ⟨a, t⟩
  · rfl
  · obtain ⟨w, hw⟩ := List.rdropWhile_prefix (l := y) (p := p)
    rw [hz] at hw
    have hy : y = a :: (t ++ w) := by rw [← hw]; simp
    rw [hy] at h
    exact dropWhile_cons_false (dropWhile_head_false h)

theorem pyStrip_lead_trimmed (s : List Char) :
    (pyStrip s).dropWhile isPyWs = pyStrip s :=
  dropWhile_rdropWhile (List.dropWhile_idempotent _ _)

theorem pyStrip_trail_trimmed (s : List Char) :
    dropTrail isPyWs (pyStrip s) = pyStrip s :=
  List.rdropWhile_idempotent _ _

theorem dropLast3_append (l : List Char) (a b c : Char) :
    (l ++ [a, b, c]).dropLast.dropLast.dropLast = l := by
  have e1 : l ++ [a, b, c] = (l ++ [a, b]) ++ [c] := by simp
  have e2 : l ++ [a, b] = (l ++ [a]) ++ [b] := by simp
  rw [e1, List.dropLast_concat, e2, List.dropLast_concat, List.dropLast_concat]

theorem alpha_not_ws {c : Char} (h : isAsciiAlpha c = true) : isPyWs c = false := by
  by_contra hws
  rw [Bool.not_eq_false] at hws
  simp only [isPyWs, Bool.or_eq_true, decide_eq_true_eq] at hws
  rcases hws with ((((h' | h') | h') | h') | h') | h' <;> subst h' <;>
    exact absurd h (by decide)

theorem dropWhile_eq_self_of_all {p : Char → Bool} {s : List Char}
    (h : ∀ x ∈ s, p x = false) : s.dropWhile p = s := by
  cases s with
  | nil => rfl
  | cons a t => exact dropWhile_cons_false (h a (by simp))

theorem dropTrail_eq_self_of_all {p : Char → Bool} {s : List Char}
    (h : ∀ x ∈ s, p x = false) : dropTrail p s = s := by
  show (s.reverse.dropWhile p).reverse = s
  rw [dropWhile_eq_self_of_all (fun x hx => h x (List.mem_reverse.mp hx)),
    List.reverse_reverse]

theorem pyStrip_append_nl {B : List Char} (h1 : B.dropWhile isPyWs = B)
    (h2 : dropTrail isPyWs B = B) : pyStrip (B ++ ['\n']) = B := by
  cases B with
  | nil => rfl
  | cons a t =>
    unfold pyStrip
    rw [dropWhile_append_left h1 (List.cons_ne_nil a t) _,
      dropTrail_concat_pos (by decide) _, h2]

theorem fence_strip_full (BODY tag : List Char)
    (h1 : BODY.dropWhile isPyWs = BODY) (h2 : dropTrail isPyWs BODY = BODY)
    (htag : tag.all isAsciiAlpha = true) :
    Sanitizers.strip_markdown_fences
      ('`' :: '`' :: '`' :: (tag ++ '\n' :: (BODY ++ '\n' :: backtick3))) = BODY := by
  have htagnil : tag.dropWhile isAsciiAlpha = [] :=
    List.dropWhile_eq_nil_iff.mpr (fun x hx => List.all_eq_true.mp htag x hx)
  have hcat : ('`' :: '`' :: '`' :: (tag ++ '\n' :: (BODY ++ '\n' :: backtick3)))
      = ('`' :: '`' :: '`' :: (tag ++ '\n' :: BODY)) ++ '\n' :: backtick3 := by simp
  have hdt : dropTrail isPyWs ('`' :: '`' :: '`' :: (tag ++ '\n' :: (BODY ++ '\n' :: backtick3)))
      = ('`' :: '`' :: '`' :: (tag ++ '\n' :: (BODY ++ '\n' :: backtick3))) := by
    rw [hcat]
    exact dropTrail_append_right (by decide) (by decide) _
  have hps : pyStrip ('`' :: '`' :: '`' :: (tag ++ '\n' :: (BODY ++ '\n' :: backtick3)))
      = ('`' :: '`' :: '`' :: (tag ++ '\n' :: (BODY ++ '\n' :: backtick3))) :=
    pyStrip_eq_self (dropWhile_cons_false (by decide)) hdt
  have hrest : (tag ++ '\n' :: (BODY ++ '\n' :: backtick3)).dropWhile isAsciiAlpha
      = '\n' :: (BODY ++ '\n' :: backtick3) := by
    rw [List.dropWhile_append, htagnil]
    simp [List.dropWhile_cons, show isAsciiAlpha '\n' = false by decide]
  have hsf : Sanitizers.dropStartFence
      ('`' :: '`' :: '`' :: (tag ++ '\n' :: (BODY ++ '\n' :: backtick3)))
      = BODY ++ '\n' :: backtick3 := by
    unfold Sanitizers.dropStartFence
    rw [if_pos (by simp [backtick3, List.isPrefixOf])]
    simp only [List.drop_succ_cons, List.drop_zero]
    rw [hrest]
    rfl
  have hsuf : backtick3.isSuffixOf (BODY ++ '\n' :: backtick3) = true := by
    rw [List.isSuffixOf_iff_suffix]
    exact ⟨BODY ++ ['\n'], by simp [backtick3]⟩
  have hde : Sanitizers.dropEndFence (BODY ++ '\n' :: backtick3) = BODY ++ ['\n'] := by
    unfold Sanitizers.dropEndFence
    rw [if_pos hsuf]
    have hsh : BODY ++ '\n' :: backtick3 = (BODY ++ ['\n']) ++ ['`', '`', '`'] := by
      simp [backtick3]
    rw [hsh]
    exact dropLast3_append _ _ _ _
  unfold Sanitizers.strip_markdown_fences
  rw [if_neg (by simp), hps, hsf, hde, pyStrip_append_nl h1 h2]

theorem fence_strip_noend (BODY tag : List Char)
    (h1 : BODY.dropWhile isPyWs = BODY) (h2 : dropTrail isPyWs BODY = BODY)
    (htag : tag.all isAsciiAlpha = true)
    (hnb : backtick3.isSuffixOf BODY = false) :
    Sanitizers.strip_markdown_fences ('`' :: '`' :: '`' :: (tag ++ '\n' :: BODY)) = BODY := by
  have htagnil : tag.dropWhile isAsciiAlpha = [] :=
    List.dropWhile_eq_nil_iff.mpr (fun x hx => List.all_eq_true.mp htag x hx)
  by_cases hB : BODY = []
  · subst hB
    have hall : ∀ x ∈ ('`' :: '`' :: '`' :: tag), isPyWs x = false := by
      intro x hx
      simp only [List.mem_cons] at hx
      rcases hx with h' | h' | h' | h'
      · subst h'; decide
      · subst h'; decide
      · subst h'; decide
      · exact alpha_not_ws (List.all_eq_true.mp htag x h')
    unfold Sanitizers.strip_markdown_fences
    rw [if_neg (by simp)]
    have hps : pyStrip ('`' :: '`' :: '`' :: (tag ++ '\n' :: [])) = '`' :: '`' :: '`' :: tag := by
      unfold pyStrip
      rw [dropWhile_cons_false (by decide)]
      have hsh : ('`' :: '`' :: '`' :: (tag ++ '\n' :: [])) = ('`' :: '`' :: '`' :: tag) ++ ['\n'] := by
        simp
      rw [hsh, dropTrail_concat_pos (by decide) _, dropTrail_eq_self_of_all hall]
    rw [hps]
    have hsf : Sanitizers.dropStartFence ('`' :: '`' :: '`' :: tag) = [] := by
      unfold Sanitizers.dropStartFence
      rw [if_pos (by simp [backtick3, List.isPrefixOf])]
      simp only [List.drop_succ_cons, List.drop_zero]
      rw [htagnil]
    rw [hsf]
    rfl
  · unfold Sanitizers.strip_markdown_fences
    rw [if_neg (by simp)]
    have hps : pyStrip ('`' :: '`' :: '`' :: (tag ++ '\n' :: BODY))
        = '`' :: '`' :: '`' :: (tag ++ '\n' :: BODY) := by
      refine pyStrip_eq_self (dropWhile_cons_false (by decide)) ?_
      have hsh : ('`' :: '`' :: '`' :: (tag ++ '\n' :: BODY))
          = ('`' :: '`' :: '`' :: (tag ++ ['\n'])) ++ BODY := by simp
      rw [hsh]
      exact dropTrail_append_right h2 hB _
    rw [hps]
    have hrest : (tag ++ '\n' :: BODY).dropWhile isAsciiAlpha = '\n' :: BODY := by
      rw [List.dropWhile_append, htagnil]
      simp [List.dropWhile_cons, show isAsciiAlpha '\n' = false by decide]
    have hsf : Sanitizers.dropStartFence ('`' :: '`' :: '`' :: (tag ++ '\n' :: BODY)) = BODY := by
      unfold Sanitizers.dropStartFence
      rw [if_pos (by simp [backtick3, List.isPrefixOf])]
      simp only [List.drop_succ_cons, List.drop_zero]
      rw [hrest]
      rfl
    rw [hsf]
    have hde : Sanitizers.dropEndFence BODY = BODY := by
      unfold Sanitizers.dropEndFence
      rw [if_neg (by simp [hnb])]
    rw [hde]
    exact pyStrip_eq_self h1 h2

theorem strip_output_trimmed (x : List Char) :
    (Sanitizers.strip_markdown_fences x).dropWhile isPyWs =
      Sanitizers.strip_markdown_fences x ∧
    dropTrail isPyWs (Sanitizers.strip_markdown_fences x) =
      Sanitizers.strip_markdown_fences x := by
  unfold Sanitizers.strip_markdown_fences
  split
  · exact ⟨rfl, rfl⟩
  · exact ⟨pyStrip_lead_trimmed _, pyStrip_trail_trimmed _⟩

theorem strip_idem_of_no_fence (x : List Char)
    (hpre : backtick3.isPrefixOf (Sanitizers.strip_markdown_fences x) = false)
    (hsuf : backtick3.isSuffixOf (Sanitizers.strip_markdown_fences x) = false) :
    Sanitizers.strip_markdown_fences (Sanitizers.strip_markdown_fences x) =
      Sanitizers.strip_markdown_fences x := by
  by_cases hnil : Sanitizers.strip_markdown_fences x = []
  · rw [hnil]
    rfl
  · have htrim := strip_output_trimmed x
    set y := Sanitizers.strip_markdown_fences x with hy
    have hsf : Sanitizers.dropStartFence y = y := by
      unfold Sanitizers.dropStartFence
      rw [if_neg (by simp [hpre])]
    have hde : Sanitizers.dropEndFence y = y := by
      unfold Sanitizers.dropEndFence
      rw [if_neg (by simp [hsuf])]
    rw [Sanitizers.strip_markdown_fences]
    rw [if_neg hnil, pyStrip_eq_self htrim.1 htrim.2, hsf, hde,
      pyStrip_eq_self htrim.1 htrim.2]

/-- **C4, counterexample.**  As stated, the claim fails: (i) a BODY with
leading whitespace is not returned intact, because `strip_markdown_fences`
trims the text (`" x"` comes back as `"x"`); (ii) re-running on
already-stripped text is not always a no-op: stripping `"```\n```\n```"`
yields `"```"` (BODY between the fences), and a second run turns it into
`""`. -/
theorem c4_counterexample :
    Sanitizers.strip_markdown_fences "```typst\n x\n```".toList ≠ " x".toList ∧
    Sanitizers.strip_markdown_fences "```\n```\n```".toList = "```".toList ∧
    Sanitizers.strip_markdown_fences
        (Sanitizers.strip_markdown_fences "```\n```\n```".toList) ≠
      Sanitizers.strip_markdown_fences "```\n```\n```".toList := by
  refine ⟨?_, ?_, ?_⟩ <;> decide

/-- **C4 (amended).**  For every BODY with no leading or trailing
whitespace and every pure-letter language tag: stripping the fenced forms
`"```tag\nBODY\n```"` and `"```\nBODY\n```"` yields BODY exactly; the
no-trailing-fence variant `"```tag\nBODY"` yields BODY provided BODY does
not itself end in a fence marker; and re-running is a no-op on any output
that does not begin or end with a fence marker. -/
theorem c4_fence_stripping (BODY tag : List Char)
    (h1 : BODY.dropWhile isPyWs = BODY)
    (h2 : dropTrail isPyWs BODY = BODY)
    (htag : tag.all isAsciiAlpha = true) :
    Sanitizers.strip_markdown_fences
      ('`' :: '`' :: '`' :: (tag ++ '\n' :: (BODY ++ '\n' :: backtick3))) = BODY ∧
    Sanitizers.strip_markdown_fences
      ('`' :: '`' :: '`' :: ('\n' :: (BODY ++ '\n' :: backtick3))) = BODY ∧
    (backtick3.isSuffixOf BODY = false →
      Sanitizers.strip_markdown_fences
        ('`' :: '`' :: '`' :: (tag ++ '\n' :: BODY)) = BODY) ∧
    (∀ x, backtick3.isPrefixOf (Sanitizers.strip_markdown_fences x) = false →
      backtick3.isSuffixOf (Sanitizers.strip_markdown_fences x) = false →
      Sanitizers.strip_markdown_fences (Sanitizers.strip_markdown_fences x) =
        Sanitizers.strip_markdown_fences x) :=
  ⟨fence_strip_full BODY tag h1 h2 htag,
   by simpa using fence_strip_full BODY [] h1 h2 rfl,
   fun hnb => fence_strip_noend BODY tag h1 h2 htag hnb,
   fun x hp hs => strip_idem_of_no_fence x hp hs⟩

/-- **C4, witness** at BODY `x`, tag `typst` (all four conjuncts). -/
theorem c4_witness :
    Sanitizers.strip_markdown_fences
      ('`' :: '`' :: '`' :: ("typst".toList ++ '\n' :: ("x".toList ++ '\n' :: backtick3)))
      = "x".toList ∧
    Sanitizers.strip_markdown_fences
      ('`' :: '`' :: '`' :: ('\n' :: ("x".toList ++ '\n' :: backtick3))) = "x".toList ∧
    Sanitizers.strip_markdown_fences
      ('`' :: '`' :: '`' :: ("typst".toList ++ '\n' :: "x".toList)) = "x".toList ∧
    Sanitizers.strip_markdown_fences (Sanitizers.strip_markdown_fences "abc".toList) =
      Sanitizers.strip_markdown_fences "abc".toList := by
  have h := c4_fence_stripping "x".toList "typst".toList (by decide) (by decide) (by decide)
  exact ⟨h.1, h.2.1, h.2.2.1 (by decide), h.2.2.2 "abc".toList (by decide) (by decide)⟩

/-! ## Claim C3 — idempotence of sanitization -/

def nl4 : List Char := ['\n', '\n', '\n', '\n']

theorem dropWhile_eq_drop (q : Char → Bool) :
    ∀ s : List Char, s.dropWhile q = s.drop (s.takeWhile q).length := by
  intro s
  induction s with
  | nil => rfl
  | cons a t ih =>
    rw [List.dropWhile_cons, List.takeWhile_cons]
    by_cases h : q a
    · simp only [if_pos h, List.length_cons, List.drop_succ_cons]
      exact ih
    · simp [if_neg h]

/-- Structural specification of the `\n{4,}` → `\n\n\n` sub pass: replace
each maximal run of at least four newlines by exactly three. -/
def collapseSpec : List Char → List Char
  | [] => []
  | c :: rest =>
    if 4 ≤ ((c :: rest).takeWhile (· = '\n')).length then
      '\n' :: '\n' :: '\n' ::
        collapseSpec ((c :: rest).drop ((c :: rest).takeWhile (· = '\n')).length)
    else c :: collapseSpec rest
termination_by s => s.length
decreasing_by
  · have h4 : 4 ≤ ((c :: rest).takeWhile (· = '\n')).length := by assumption
    simp only [List.length_drop, List.length_cons]
    omega
  · simp

theorem scanSub_cons_some {tm : Option Char → List Char → Option (List Char × Nat)}
    {fuel : Nat} {prev : Option Char} {c : Char} {rest rep : List Char} {k : Nat}
    (h : tm prev (c :: rest) = some (rep, k)) :
    scanSub tm (fuel + 1) prev (c :: rest) =
      rep ++ scanSub tm fuel (((c :: rest).take k).getLast?) ((c :: rest).drop k) := by
  rw [scanSub, h]

theorem scanSub_cons_none {tm : Option Char → List Char → Option (List Char × Nat)}
    {fuel : Nat} {prev : Option Char} {c : Char} {rest : List Char}
    (h : tm prev (c :: rest) = none) :
    scanSub tm (fuel + 1) prev (c :: rest) = c :: scanSub tm fuel (some c) rest := by
  rw [scanSub, h]

theorem scanSub_mNl4_eq : ∀ (n : Nat) (prev : Option Char) (s : List Char),
    s.length ≤ n → scanSub Sanitizer.mNl4 n prev s = collapseSpec s := by
  intro n
  induction n with
  | zero =>
    intro prev s h
    have hs : s = [] := List.eq_nil_of_length_eq_zero (Nat.le_zero.mp h)
    subst hs
    simp [scanSub, collapseSpec]
  | succ n ih =>
    intro prev s hlen
    cases s with
    | nil => simp [scanSub, collapseSpec]
    | cons c rest =>
      by_cases h4 : 4 ≤ ((c :: rest).takeWhile (· = '\n')).length
      · have hmatch : Sanitizer.mNl4 prev (c :: rest) =
            some (['\n', '\n', '\n'], ((c :: rest).takeWhile (· = '\n')).length) := by
          simp only [Sanitizer.mNl4, if_pos h4]
        rw [scanSub_cons_some hmatch]
        rw [collapseSpec, if_pos h4]
        have hdroplen : ((c :: rest).drop ((c :: rest).takeWhile (· = '\n')).length).length ≤ n := by
          simp only [List.length_drop, List.length_cons]
          simp only [List.length_cons] at hlen
          omega
        rw [ih _ _ hdroplen]
        rfl
      · have hmatch : Sanitizer.mNl4 prev (c :: rest) = none := by
          simp only [Sanitizer.mNl4, if_neg h4]
        rw [scanSub_cons_none hmatch]
        rw [collapseSpec, if_neg h4]
        have hr : rest.length ≤ n := by
          simp only [List.length_cons] at hlen
          omega
        rw [ih _ _ hr]

theorem runSub_mNl4_eq (s : List Char) :
    runSub Sanitizer.mNl4 s = collapseSpec s :=
  scanSub_mNl4_eq s.length none s (Nat.le_refl _)

theorem takeWhile_pos_head {q : Char → Bool} {c : Char} {rest : List Char}
    (h : 0 < ((c :: rest).takeWhile q).length) : q c = true := by
  by_contra hc
  rw [Bool.not_eq_true] at hc
  rw [List.takeWhile_cons, if_neg (by simp [hc])] at h
  simp at h

theorem collapseSpec_head? (s : List Char) : (collapseSpec s).head? = s.head? := by
  cases s with
  | nil => simp [collapseSpec]
  | cons c rest =>
    rw [collapseSpec]
    by_cases h4 : 4 ≤ ((c :: rest).takeWhile (· = '\n')).length
    · rw [if_pos h4]
      have hc : c = '\n' := by
        have := @takeWhile_pos_head (· = '\n') c rest (by omega)
        simpa using this
      simp [hc]
    · rw [if_neg h4]
      simp

theorem collapseSpec_ne_nil {s : List Char} (h : s ≠ []) : collapseSpec s ≠ [] := by
  intro hc
  have h1 := collapseSpec_head? s
  rw [hc] at h1
  cases s with
  | nil => exact h rfl
  | cons a t => simp at h1

/-- No whitespace character other than `\n` sits immediately before a
newline or at the end of the text: every line is right-stripped. -/
def okChar (c : Char) (next : Option Char) : Bool :=
  !(isPyWs c && !(c == '\n') && (next.getD '\n' == '\n'))

def noTrailWs : List Char → Bool
  | [] => true
  | c :: rest => okChar c rest.head? && noTrailWs rest

theorem noTrailWs_tail {c : Char} {rest : List Char}
    (h : noTrailWs (c :: rest) = true) : noTrailWs rest = true := by
  rw [noTrailWs, Bool.and_eq_true] at h
  exact h.2

theorem noTrailWs_dropWhile (q : Char → Bool) :
    ∀ s : List Char, noTrailWs s = true → noTrailWs (s.dropWhile q) = true := by
  intro s h
  induction s with
  | nil => exact h
  | cons c rest ih =>
    rw [List.dropWhile_cons]
    by_cases hq : q c
    · rw [if_pos hq]
      exact ih (noTrailWs_tail h)
    · rw [if_neg hq]
      exact h

theorem noTrailWs_collapseSpec : ∀ (n : Nat) (s : List Char), s.length ≤ n →
    noTrailWs s = true → noTrailWs (collapseSpec s) = true := by
  intro n
  induction n with
  | zero =>
    intro s hl h
    have hs : s = [] := List.eq_nil_of_length_eq_zero (Nat.le_zero.mp hl)
    subst hs
    simpa [collapseSpec] using h
  | succ n ih =>
    intro s hl h
    cases s with
    | nil => simpa [collapseSpec] using h
    | cons c rest =>
      rw [collapseSpec]
      by_cases h4 : 4 ≤ ((c :: rest).takeWhile (· = '\n')).length
      · rw [if_pos h4]
        have hdw : (c :: rest).drop ((c :: rest).takeWhile (· = '\n')).length
            = (c :: rest).dropWhile (· = '\n') := (dropWhile_eq_drop _ _).symm
        rw [hdw]
        have hs' : noTrailWs ((c :: rest).dropWhile (· = '\n')) = true :=
          noTrailWs_dropWhile _ _ h
        have hlen' : ((c :: rest).dropWhile (· = '\n')).length ≤ n := by
          rw [dropWhile_eq_drop]
          simp only [List.length_drop, List.length_cons]
          simp only [List.length_cons] at hl
          omega
        have hX := ih _ hlen' hs'
        rw [noTrailWs, noTrailWs, noTrailWs,
          Bool.and_eq_true, Bool.and_eq_true, Bool.and_eq_true]
        exact ⟨by simp [okChar], by simp [okChar], by simp [okChar], hX⟩
      · rw [if_neg h4]
        rw [noTrailWs, Bool.and_eq_true]
        have hlen' : rest.length ≤ n := by
          simp only [List.length_cons] at hl
          omega
        refine ⟨?_, ih _ hlen' (noTrailWs_tail h)⟩
        rw [collapseSpec_head?]
        rw [noTrailWs, Bool.and_eq_true] at h
        exact h.1

theorem dropWhile_head?_false (q : Char → Bool) :
    ∀ s : List Char, ∀ a, (s.dropWhile q).head? = some a → q a = false := by
  intro s
  induction s with
  | nil =>
    intro a h
    simp at h
  | cons c rest ih =>
    intro a h
    rw [List.dropWhile_cons] at h
    by_cases hq : q c
    · rw [if_pos hq] at h
      exact ih a h
    · rw [if_neg hq] at h
      simp only [List.head?_cons, Option.some_inj] at h
      subst h
      simpa using hq

theorem takeWhile_nil_of_head {X : List Char} (hX : X.head? ≠ some '\n') :
    X.takeWhile (· = '\n') = [] := by
  cases X with
  | nil => rfl
  | cons d X' =>
    rw [List.takeWhile_cons, if_neg]
    simp only [List.head?_cons, ne_eq, Option.some_inj] at hX
    simp [hX]

theorem takeWhile_ge4_of_nl_prefix {Y : List Char} (h : nl4.isPrefixOf Y = true) :
    4 ≤ (Y.takeWhile (· = '\n')).length := by
  obtain ⟨Z, hZ⟩ := List.isPrefixOf_iff_prefix.mp h
  rw [← hZ]
  simp [nl4, List.takeWhile_cons]

theorem collapseSpec_run : ∀ (n : Nat) (s : List Char), s.length ≤ n →
    ((collapseSpec s).takeWhile (· = '\n')).length =
      min ((s.takeWhile (· = '\n')).length) 3 := by
  intro n
  induction n with
  | zero =>
    intro s hl
    have hs : s = [] := List.eq_nil_of_length_eq_zero (Nat.le_zero.mp hl)
    subst hs
    simp [collapseSpec]
  | succ n ih =>
    intro s hl
    cases s with
    | nil => simp [collapseSpec]
    | cons c rest =>
      rw [collapseSpec]
      by_cases h4 : 4 ≤ ((c :: rest).takeWhile (· = '\n')).length
      · rw [if_pos h4]
        have hdw : (c :: rest).drop ((c :: rest).takeWhile (· = '\n')).length
            = (c :: rest).dropWhile (· = '\n') := (dropWhile_eq_drop _ _).symm
        rw [hdw]
        have hhead : ((c :: rest).dropWhile (· = '\n')).head? ≠ some '\n' := by
          intro hcon
          have := dropWhile_head?_false (· = '\n') (c :: rest) '\n' hcon
          simp at this
        have hX : (collapseSpec ((c :: rest).dropWhile (· = '\n'))).head? ≠ some '\n' := by
          rw [collapseSpec_head?]
          exact hhead
        rw [List.takeWhile_cons, if_pos (by simp), List.takeWhile_cons, if_pos (by simp),
          List.takeWhile_cons, if_pos (by simp), takeWhile_nil_of_head hX]
        simp only [List.length_cons, List.length_nil]
        omega
      · rw [if_neg h4]
        have hlen' : rest.length ≤ n := by
          simp only [List.length_cons] at hl
          omega
        by_cases hc : c = '\n'
        · subst hc
          rw [List.takeWhile_cons, if_pos (by simp), List.takeWhile_cons, if_pos (by simp)]
          rw [List.takeWhile_cons, if_pos (by simp)] at h4
          simp only [List.length_cons] at h4 ⊢
          have hihr := ih rest hlen'
          omega
        · rw [List.takeWhile_cons, if_neg (by simp [hc]), List.takeWhile_cons,
            if_neg (by simp [hc])]
          simp

theorem containsSub_nl4_three {X : List Char} (hX : X.head? ≠ some '\n')
    (h : containsSub nl4 X = false) :
    containsSub nl4 ('\n' :: '\n' :: '\n' :: X) = false := by
  cases hXs : X with
  | nil => decide
  | cons d X' =>
    have hd : ('\n' == d) = false := by
      rw [hXs] at hX
      simp only [List.head?_cons, ne_eq, Option.some_inj] at hX
      exact beq_eq_false_iff_ne.mpr (fun he => hX he.symm)
    rw [hXs] at h
    rw [containsSub, containsSub, containsSub]
    have h' : containsSub ['\n', '\n', '\n', '\n'] (d :: X') = false := by
      simpa [nl4] using h
    simp [List.isPrefixOf, nl4, hd, h']

theorem collapseSpec_no_nl4 : ∀ (n : Nat) (s : List Char), s.length ≤ n →
    containsSub nl4 (collapseSpec s) = false := by
  intro n
  induction n with
  | zero =>
    intro s hl
    have hs : s = [] := List.eq_nil_of_length_eq_zero (Nat.le_zero.mp hl)
    subst hs
    simp [collapseSpec]
    decide
  | succ n ih =>
    intro s hl
    cases s with
    | nil =>
      simp [collapseSpec]
      decide
    | cons c rest =>
      rw [collapseSpec]
      by_cases h4 : 4 ≤ ((c :: rest).takeWhile (· = '\n')).length
      · rw [if_pos h4]
        have hdw : (c :: rest).drop ((c :: rest).takeWhile (· = '\n')).length
            = (c :: rest).dropWhile (· = '\n') := (dropWhile_eq_drop _ _).symm
        rw [hdw]
        have hhead : ((c :: rest).dropWhile (· = '\n')).head? ≠ some '\n' := by
          intro hcon
          have := dropWhile_head?_false (· = '\n') (c :: rest) '\n' hcon
          simp at this
        have hX : (collapseSpec ((c :: rest).dropWhile (· = '\n'))).head? ≠ some '\n' := by
          rw [collapseSpec_head?]
          exact hhead
        have hlen' : ((c :: rest).dropWhile (· = '\n')).length ≤ n := by
          have h1 : ((c :: rest).takeWhile (· = '\n')).length +
              ((c :: rest).dropWhile (· = '\n')).length = (c :: rest).length := by
            rw [← List.length_append, List.takeWhile_append_dropWhile]
          simp only [List.length_cons] at hl h1
          omega
        exact containsSub_nl4_three hX (ih _ hlen')
      · rw [if_neg h4]
        have hlen' : rest.length ≤ n := by
          simp only [List.length_cons] at hl
          omega
        rw [containsSub]
        refine Bool.or_eq_false_iff.mpr ⟨?_, ih rest hlen'⟩
        by_contra hP
        rw [Bool.not_eq_false] at hP
        have hrun := takeWhile_ge4_of_nl_prefix hP
        have hout : c :: collapseSpec rest = collapseSpec (c :: rest) := by
          rw [collapseSpec, if_neg h4]
        rw [hout, collapseSpec_run (c :: rest).length (c :: rest) le_rfl] at hrun
        have hmin : min ((c :: rest).takeWhile (· = '\n')).length 3 ≤ 3 :=
          Nat.min_le_right _ _
        omega

theorem nl_prefix_of_takeWhile : ∀ (k : Nat) (s : List Char),
    k ≤ (s.takeWhile (· = '\n')).length →
    (List.replicate k '\n').isPrefixOf s = true := by
  intro k
  induction k with
  | zero =>
    intro s _
    simp [List.replicate, List.isPrefixOf]
  | succ k ih =>
    intro s h
    cases s with
    | nil => simp [List.takeWhile] at h
    | cons a rest =>
      have ha : a = '\n' := by
        have := @takeWhile_pos_head (· = '\n') a rest (by omega)
        simpa using this
      subst ha
      rw [List.takeWhile_cons, if_pos (by simp)] at h
      simp only [List.length_cons] at h
      rw [List.replicate_succ]
      simp [List.isPrefixOf, ih rest (by omega)]

theorem collapseSpec_eq_self : ∀ (n : Nat) (s : List Char), s.length ≤ n →
    containsSub nl4 s = false → collapseSpec s = s := by
  intro n
  induction n with
  | zero =>
    intro s hl _
    have hs : s = [] := List.eq_nil_of_length_eq_zero (Nat.le_zero.mp hl)
    subst hs
    simp [collapseSpec]
  | succ n ih =>
    intro s hl hno
    cases s with
    | nil => simp [collapseSpec]
    | cons c rest =>
      rw [collapseSpec]
      by_cases h4 : 4 ≤ ((c :: rest).takeWhile (· = '\n')).length
      · exfalso
        have hpre : nl4.isPrefixOf (c :: rest) = true := by
          have := nl_prefix_of_takeWhile 4 (c :: rest) h4
          simpa [nl4] using this
        rw [containsSub, hpre] at hno
        simp at hno
      · rw [if_neg h4]
        rw [containsSub, Bool.or_eq_false_iff] at hno
        have hlen' : rest.length ≤ n := by
          simp only [List.length_cons] at hl
          omega
        rw [ih rest hlen' hno.2]

theorem collapseSpec_idem (s : List Char) :
    collapseSpec (collapseSpec s) = collapseSpec s :=
  collapseSpec_eq_self (collapseSpec s).length (collapseSpec s) le_rfl
    (collapseSpec_no_nl4 s.length s le_rfl)

theorem splitNl_ne_nil : ∀ s : List Char, splitNl s ≠ [] := by
  intro s
  cases s with
  | nil => simp [splitNl]
  | cons c rest =>
    rw [splitNl]
    by_cases hc : c = '\n'
    · rw [if_pos hc]
      simp
    · rw [if_neg hc]
      rcases h : splitNl rest with _ | ⟨l, ls⟩ <;> simp

theorem joinNl_single (l : List Char) : joinNl [l] = l := rfl

theorem joinNl_cons2 (l m : List Char) (ms : List (List Char)) :
    joinNl (l :: m :: ms) = l ++ '\n' :: joinNl (m :: ms) := rfl

theorem joinNl_splitNl : ∀ s : List Char, joinNl (splitNl s) = s := by
  intro s
  induction s with
  | nil => rfl
  | cons c rest ih =>
    rw [splitNl]
    by_cases hc : c = '\n'
    · rw [if_pos hc]
      rcases h : splitNl rest with _ | ⟨l, ls⟩
      · exact absurd h (splitNl_ne_nil rest)
      · rw [joinNl_cons2, ← h, ih, hc]
        rfl
    · rw [if_neg hc]
      rcases h : splitNl rest with _ | ⟨l, ls⟩
      · exact absurd h (splitNl_ne_nil rest)
      · cases ls with
        | nil =>
          rw [joinNl_single]
          rw [h, joinNl_single] at ih
          rw [ih]
        | cons m ms =>
          rw [joinNl_cons2]
          rw [h, joinNl_cons2] at ih
          simp [ih]

theorem splitNl_no_nl : ∀ s : List Char, ∀ l ∈ splitNl s, '\n' ∉ l := by
  intro s
  induction s with
  | nil =>
    intro l hl
    simp [splitNl] at hl
    subst hl
    simp
  | cons c rest ih =>
    intro l hl
    rw [splitNl] at hl
    by_cases hc : c = '\n'
    · rw [if_pos hc] at hl
      rcases List.mem_cons.mp hl with h | h
      · subst h
        simp
      · exact ih l h
    · rw [if_neg hc] at hl
      rcases hsp : splitNl rest with _ | ⟨m, ms⟩
      · exact absurd hsp (splitNl_ne_nil rest)
      · rw [hsp] at hl
        rcases List.mem_cons.mp hl with h | h
        · subst h
          intro hmem
          rcases List.mem_cons.mp hmem with h' | h'
          · exact hc h'.symm
          · exact ih m (by rw [hsp]; simp) h'
        · exact ih l (by rw [hsp]; exact List.mem_cons_of_mem _ h)

theorem not_mem_dropTrail {c : Char} {l : List Char} (h : c ∉ l) :
    c ∉ dropTrail isPyWs l := by
  intro hc
  apply h
  have h1 : c ∈ l.reverse.dropWhile isPyWs := by
    simpa [dropTrail] using hc
  rw [dropWhile_eq_drop] at h1
  have h2 : c ∈ l.reverse := List.drop_subset _ _ h1
  simpa using h2

theorem dropTrail_idem (p : Char → Bool) (l : List Char) :
    dropTrail p (dropTrail p l) = dropTrail p l :=
  List.rdropWhile_idempotent _ _

theorem rstripped_getLast {l : List Char} (h : dropTrail isPyWs l = l) :
    ∀ hl : l ≠ [], ¬ isPyWs (l.getLast hl) := by
  rw [dropTrail_eq_rdropWhile, List.rdropWhile_eq_self_iff] at h
  exact h

theorem rstripped_of_getLast {l : List Char}
    (h : ∀ hl : l ≠ [], ¬ isPyWs (l.getLast hl)) : dropTrail isPyWs l = l := by
  rw [dropTrail_eq_rdropWhile, List.rdropWhile_eq_self_iff]
  exact h

theorem rstripped_cons {c : Char} {l : List Char} (hne : l ≠ [])
    (h : dropTrail isPyWs (c :: l) = c :: l) : dropTrail isPyWs l = l := by
  apply rstripped_of_getLast
  intro hl
  have h2 := rstripped_getLast h (by simp)
  rwa [List.getLast_cons hne] at h2

theorem rstripped_cons_build {c : Char} {l : List Char} (hne : l ≠ [])
    (h : dropTrail isPyWs l = l) : dropTrail isPyWs (c :: l) = c :: l := by
  apply rstripped_of_getLast
  intro hl
  rw [List.getLast_cons hne]
  exact rstripped_getLast h hne

theorem rstripped_single {c : Char} (h : isPyWs c = false) :
    dropTrail isPyWs [c] = [c] := by
  apply rstripped_of_getLast
  intro hl
  simp [h]

theorem rstripped_single_head {c : Char} (h : dropTrail isPyWs [c] = [c]) :
    isPyWs c = false := by
  have h2 := rstripped_getLast h (by simp)
  simpa using h2

theorem noTrailWs_line : ∀ l : List Char, '\n' ∉ l → dropTrail isPyWs l = l →
    noTrailWs l = true := by
  intro l
  induction l with
  | nil =>
    intro _ _
    rfl
  | cons c rest ih =>
    intro hnl hrs
    rw [noTrailWs, Bool.and_eq_true]
    cases rest with
    | nil =>
      have hcw : isPyWs c = false := rstripped_single_head hrs
      exact ⟨by simp [okChar, hcw], rfl⟩
    | cons d t =>
      have hdn : d ≠ '\n' := fun he => hnl (by simp [he])
      have hd : (d == '\n') = false := beq_eq_false_iff_ne.mpr hdn
      refine ⟨by simp [okChar, hd], ?_⟩
      exact ih (fun hm => hnl (List.mem_cons_of_mem _ hm)) (rstripped_cons (by simp) hrs)

theorem noTrailWs_glue : ∀ (l t : List Char), '\n' ∉ l → dropTrail isPyWs l = l →
    noTrailWs t = true → noTrailWs (l ++ '\n' :: t) = true := by
  intro l
  induction l with
  | nil =>
    intro t _ _ ht
    rw [List.nil_append, noTrailWs, Bool.and_eq_true]
    exact ⟨by simp [okChar], ht⟩
  | cons c rest ih =>
    intro t hnl hrs ht
    rw [List.cons_append, noTrailWs, Bool.and_eq_true]
    cases rest with
    | nil =>
      have hcw : isPyWs c = false := rstripped_single_head hrs
      refine ⟨by simp [okChar, hcw], ?_⟩
      exact ih t (by simp) rfl ht
    | cons d t' =>
      have hdn : d ≠ '\n' := fun he => hnl (by simp [he])
      have hd : (d == '\n') = false := beq_eq_false_iff_ne.mpr hdn
      refine ⟨by simp [okChar, hd], ?_⟩
      exact ih t (fun hm => hnl (List.mem_cons_of_mem _ hm))
        (rstripped_cons (by simp) hrs) ht

theorem noTrailWs_joinNl : ∀ L : List (List Char),
    (∀ l ∈ L, '\n' ∉ l ∧ dropTrail isPyWs l = l) → noTrailWs (joinNl L) = true := by
  intro L
  induction L with
  | nil =>
    intro _
    rfl
  | cons l ls ih =>
    intro h
    cases ls with
    | nil =>
      rw [joinNl_single]
      exact noTrailWs_line l (h l (by simp)).1 (h l (by simp)).2
    | cons m ms =>
      rw [joinNl_cons2]
      exact noTrailWs_glue l _ (h l (by simp)).1 (h l (by simp)).2
        (ih (fun x hx => h x (List.mem_cons_of_mem _ hx)))

theorem splitNl_head_nil {rest : List Char} {ms : List (List Char)}
    (h : splitNl rest = [] :: ms) :
    rest.head? = none ∨ rest.head? = some '\n' := by
  cases rest with
  | nil => exact Or.inl rfl
  | cons d r =>
    by_cases hd : d = '\n'
    · exact Or.inr (by rw [hd]; rfl)
    · exfalso
      rw [splitNl, if_neg hd] at h
      rcases hsp : splitNl r with _ | ⟨m, ms'⟩
      · exact splitNl_ne_nil r hsp
      · rw [hsp] at h
        exact absurd h (by simp)

theorem lines_rstripped_of_noTrailWs : ∀ u : List Char, noTrailWs u = true →
    ∀ l ∈ splitNl u, dropTrail isPyWs l = l := by
  intro u
  induction u with
  | nil =>
    intro _ l hl
    simp [splitNl] at hl
    subst hl
    rfl
  | cons c rest ih =>
    intro h l hl
    rw [splitNl] at hl
    by_cases hc : c = '\n'
    · rw [if_pos hc] at hl
      rcases List.mem_cons.mp hl with h' | h'
      · subst h'
        rfl
      · exact ih (noTrailWs_tail h) l h'
    · rw [if_neg hc] at hl
      rcases hsp : splitNl rest with _ | ⟨m, ms⟩
      · exact absurd hsp (splitNl_ne_nil rest)
      · rw [hsp] at hl
        rcases List.mem_cons.mp hl with h' | h'
        · subst h'
          have hm : dropTrail isPyWs m = m :=
            ih (noTrailWs_tail h) m (by rw [hsp]; simp)
          cases hmn : m with
          | nil =>
            have hok : okChar c rest.head? = true := by
              rw [noTrailWs, Bool.and_eq_true] at h
              exact h.1
            have hcb : (c == '\n') = false := beq_eq_false_iff_ne.mpr hc
            have hsp' : splitNl rest = [] :: ms := by rw [hsp, hmn]
            have hcw : isPyWs c = false := by
              rcases splitNl_head_nil hsp' with hh | hh <;>
                · rw [hh] at hok
                  simpa [okChar, hcb] using hok
            exact rstripped_single hcw
          | cons x xs =>
            rw [hmn] at hm
            exact rstripped_cons_build (by simp) hm
        · exact ih (noTrailWs_tail h) l (by rw [hsp]; exact List.mem_cons_of_mem _ h')

theorem map_eq_self_of {f : List Char → List Char} :
    ∀ L : List (List Char), (∀ l ∈ L, f l = l) → L.map f = L := by
  intro L
  induction L with
  | nil =>
    intro _
    rfl
  | cons l ls ih =>
    intro h
    rw [List.map_cons, h l (by simp), ih (fun x hx => h x (List.mem_cons_of_mem _ hx))]

/-- **C3, counterexample.**  Sanitization is not idempotent in either
snapshot: `sanitize_typst_code` collapses each `,\s*,` pair one step per
run (so `,,,` becomes `,,` and only a second run gives `,`), and
`CodeSanitizer.sanitize` strips one layer of backtick fencing per run
(`x` followed by six backticks becomes `x` followed by three, and a second
run yields bare `x`). -/
theorem c3_counterexample :
    (Sanitizer.sanitize_typst_code (Sanitizer.sanitize_typst_code ",,,".toList)
        ≠ Sanitizer.sanitize_typst_code ",,,".toList) ∧
    ((CodeSanitizer.sanitize
        (CodeSanitizer.sanitize "x``````".toList "typst".toList false).cleaned_code
        "typst".toList false).cleaned_code
      ≠ (CodeSanitizer.sanitize "x``````".toList "typst".toList false).cleaned_code) := by
  constructor
  · decide
  · decide

/-- **C3.**  What does hold is idempotence of the whitespace-normalization
pass: for every input, `CodeSanitizer._normalize_whitespace` applied to its
own cleaned text returns that text unchanged — after one pass every line is
right-stripped and every run of four or more newlines is collapsed to three,
and a second pass finds nothing to do.  The full `sanitize` /
`sanitize_typst_code` pipelines are not idempotent (see the counterexample). -/
theorem c3_normalize_whitespace_idempotent (code : List Char) :
    (CodeSanitizer.normalize_whitespace
        (CodeSanitizer.normalize_whitespace code).1).1 =
      (CodeSanitizer.normalize_whitespace code).1 := by
  have hfst : ∀ s : List Char, (CodeSanitizer.normalize_whitespace s).1 =
      collapseSpec (joinNl ((splitNl s).map (dropTrail isPyWs))) := by
    intro s
    show runSub Sanitizer.mNl4 (joinNl ((splitNl s).map (dropTrail isPyWs))) =
      collapseSpec (joinNl ((splitNl s).map (dropTrail isPyWs)))
    exact runSub_mNl4_eq _
  have hlines : ∀ s : List Char, ∀ l ∈ (splitNl s).map (dropTrail isPyWs),
      '\n' ∉ l ∧ dropTrail isPyWs l = l := by
    intro s l hl
    obtain ⟨m, hm, hml⟩ := List.mem_map.mp hl
    rw [← hml]
    exact ⟨not_mem_dropTrail (splitNl_no_nl s m hm), dropTrail_idem _ _⟩
  have hntu : noTrailWs ((CodeSanitizer.normalize_whitespace code).1) = true := by
    rw [hfst code]
    exact noTrailWs_collapseSpec _ _ le_rfl (noTrailWs_joinNl _ (hlines code))
  rw [hfst ((CodeSanitizer.normalize_whitespace code).1)]
  rw [map_eq_self_of _ (lines_rstripped_of_noTrailWs _ hntu), joinNl_splitNl]
  rw [hfst code]
  exact collapseSpec_idem _
